import Mathlib

/-!
Verification of the `unplugin-electron-ipc` build-time transform
(`src/packages/unplugin-electron-ipc/src/index.ts`).

The development shallowly embeds the transform: the TypeScript parser is an
external library, so a parsed file is modelled as the original source text
plus the list of top-level statements the parser would report (each carrying
the byte offsets the real parser yields).  Everything downstream of the
parser — export extraction, channel naming, the four-cell code generator,
the MagicString edit buffer and the textual import merge — is transliterated
from the source.  JavaScript strings are modelled at the `Char` level
(offsets index characters, mirroring UTF-16 code-unit offsets for the ASCII
inputs considered here).
-/

namespace ElectronIpc

/-! ### SHA-256, modelling node:crypto's `createHash("sha256")`
All words are `Nat`s reduced mod 2^32. -/

def w32 (n : Nat) : Nat := n % 4294967296

def rotr (s x : Nat) : Nat := w32 ((x >>> s) ||| (x <<< (32 - s)))

def bnot32 (x : Nat) : Nat := x ^^^ 4294967295

def bsig0 (x : Nat) : Nat := (rotr 2 x) ^^^ ((rotr 13 x) ^^^ (rotr 22 x))

def bsig1 (x : Nat) : Nat := (rotr 6 x) ^^^ ((rotr 11 x) ^^^ (rotr 25 x))

def ssig0 (x : Nat) : Nat := (rotr 7 x) ^^^ ((rotr 18 x) ^^^ (x >>> 3))

def ssig1 (x : Nat) : Nat := (rotr 17 x) ^^^ ((rotr 19 x) ^^^ (x >>> 10))

def chF (x y z : Nat) : Nat := (x &&& y) ^^^ ((bnot32 x) &&& z)

def majF (x y z : Nat) : Nat := (x &&& y) ^^^ ((x &&& z) ^^^ (y &&& z))

def sha256K : List Nat :=
  [1116352408, 1899447441, 3049323471, 3921009573, 961987163,
   1508970993, 2453635748, 2870763221, 3624381080, 310598401,
   607225278, 1426881987, 1925078388, 2162078206, 2614888103,
   3248222580, 3835390401, 4022224774, 264347078, 604807628,
   770255983, 1249150122, 1555081692, 1996064986, 2554220882,
   2821834349, 2952996808, 3210313671, 3336571891, 3584528711,
   113926993, 338241895, 666307205, 773529912, 1294757372,
   1396182291, 1695183700, 1986661051, 2177026350, 2456956037,
   2730485921, 2820302411, 3259730800, 3345764771, 3516065817,
   3600352804, 4094571909, 275423344, 430227734, 506948616,
   659060556, 883997877, 958139571, 1322822218, 1537002063,
   1747873779, 1955562222, 2024104815, 2227730452, 2361852424,
   2428436474, 2756734187, 3204031479, 3329325298]

def sha256H0 : List Nat :=
  [1779033703, 3144134277, 1013904242, 2773480762, 1359893119,
   2600822924, 528734635, 1541459225]

/-- Big-endian byte decomposition, `k` bytes. -/
def natToBytesBE (k n : Nat) : List Nat :=
  match k with
  | 0 => []
  | k + 1 => natToBytesBE k (n >>> 8) ++ [n &&& 255]

/-- SHA-256 padding: append 0x80, zero bytes, and the 64-bit big-endian
bit length so the total length is a multiple of 64 bytes. -/
def sha256Pad (msg : List Nat) : List Nat :=
  let len := msg.length
  let zeros := (120 - ((len + 1) % 64)) % 64
  msg ++ [0x80] ++ List.replicate zeros 0 ++ natToBytesBE 8 (8 * len)

/-- Group a byte list into 32-bit big-endian words. -/
def bytesToWords : List Nat → List Nat
  | b0 :: b1 :: b2 :: b3 :: rest =>
      (((b0 <<< 8 ||| b1) <<< 8 ||| b2) <<< 8 ||| b3) :: bytesToWords rest
  | _ => []

/-- Extend 16 message words to the 64-entry message schedule. -/
def extendSchedule (w : List Nat) : Nat → List Nat
  | 0 => w
  | n + 1 =>
      let i := w.length
      let next := w32 (ssig1 (w.getD (i - 2) 0) + w.getD (i - 7) 0 +
                       ssig0 (w.getD (i - 15) 0) + w.getD (i - 16) 0)
      extendSchedule (w ++ [next]) n

/-- One round of the SHA-256 compression function. -/
def sha256Round (st : List Nat) (kw : Nat × Nat) : List Nat :=
  match st with
  | [a, b, c, d, e, f, g, h] =>
      let t1 := w32 (h + bsig1 e + chF e f g + kw.1 + kw.2)
      let t2 := w32 (bsig0 a + majF a b c)
      [w32 (t1 + t2), a, b, c, w32 (d + t1), e, f, g]
  | st => st

/-- Process one 64-byte block against the running hash state. -/
def sha256Block (st : List Nat) (block : List Nat) : List Nat :=
  let w := extendSchedule (bytesToWords block) 48
  let st' := (sha256K.zip w |>.map (fun p => (p.1, p.2))).foldl
      (fun s kw => sha256Round s kw) st
  (st.zip st').map (fun p => w32 (p.1 + p.2))

def chunk64Aux : Nat → List Nat → List (List Nat)
  | 0, _ => []
  | _, [] => []
  | fuel + 1, a :: t => (a :: t).take 64 :: chunk64Aux fuel ((a :: t).drop 64)

def chunk64 (l : List Nat) : List (List Nat) := chunk64Aux l.length l

/-- The SHA-256 digest (as eight 32-bit words) of a byte list. -/
def sha256Words (msg : List Nat) : List Nat :=
  (chunk64 (sha256Pad msg)).foldl sha256Block sha256H0

def hexDigitChar (n : Nat) : Char :=
  if n < 10 then Char.ofNat (48 + n) else Char.ofNat (87 + n)

/-- Lowercase hex of one 32-bit word (8 digits). -/
def wordToHex (n : Nat) : List Char :=
  (List.range 8).map (fun i => hexDigitChar ((n >>> (28 - 4 * i)) &&& 15))

/-- Lowercase hex digest string, 64 characters. -/
def sha256Hex (msg : List Nat) : String :=
  ⟨(sha256Words msg).flatMap wordToHex⟩

/-- UTF-8 encoding of one character (what `hash.update(text)` feeds the
digest for a JS string). -/
def charUtf8 (c : Char) : List Nat :=
  let n := c.toNat
  if n < 0x80 then [n]
  else if n < 0x800 then [0xc0 ||| (n >>> 6), 0x80 ||| (n &&& 63)]
  else if n < 0x10000 then
    [0xe0 ||| (n >>> 12), 0x80 ||| ((n >>> 6) &&& 63), 0x80 ||| (n &&& 63)]
  else
    [0xf0 ||| (n >>> 18), 0x80 ||| ((n >>> 12) &&& 63),
     0x80 ||| ((n >>> 6) &&& 63), 0x80 ||| (n &&& 63)]

def utf8Bytes (s : String) : List Nat := s.data.flatMap charUtf8

/-- Transliteration of `createHashForText` (index.ts lines 12-14):
first 12 hex digits of the SHA-256 digest of the text. -/
def createHashForText (text : String) : String :=
  ⟨(sha256Hex (utf8Bytes text)).data.take 12⟩

/-! ### JS string helpers (Char-level models of the string operations used) -/

/-- `source.slice(a, b)` for `0 ≤ a ≤ b` (character offsets). -/
def sliceStr (s : String) (a b : Nat) : String := ⟨(s.data.drop a).take (b - a)⟩

/-- Whether `suffix` ends `s`; models an end-anchored literal regex test. -/
def endsWithStr (s suffix : String) : Bool := List.isSuffixOf suffix.data s.data

/-- Models the test `/\.ipc\.(t|j)s$/.test(id)` (index.ts line 37). -/
def testIpcFile (id : String) : Bool :=
  endsWithStr id ".ipc.ts" || endsWithStr id ".ipc.js"

/-- Models `/\.main\.ipc\.(t|j)s$/.test(id)` (lines 41, 59). -/
def testMainIpcFile (id : String) : Bool :=
  endsWithStr id ".main.ipc.ts" || endsWithStr id ".main.ipc.js"

/-- Models `/\.renderer\.ipc\.(t|j)s$/.test(id)` (lines 42, 60). -/
def testRendererIpcFile (id : String) : Bool :=
  endsWithStr id ".renderer.ipc.ts" || endsWithStr id ".renderer.ipc.js"

/-- `path.basename(id)`: the final path component. -/
def basename (p : String) : String := ⟨(p.data.reverse.takeWhile (fun c => c != '/')).reverse⟩

/-! ### Data model -/

/-- The plugin `Options.context` value ("main" or "renderer"). -/
inductive Context
  | main
  | renderer
  deriving DecidableEq, Repr

/-- Transliteration of the `ExportedFunction` record (index.ts lines 24-31).
`stop` is the source's `end` field (a Lean keyword). -/
structure ExportedFunction where
  name : String
  start : Nat
  stop : Nat
  isAsync : Bool
  originalBodyCode : String
  isDefault : Bool
  deriving DecidableEq, Repr

/-- A variable declaration's initializer, reduced to what `visit` inspects:
whether it is an arrow function / function expression, its `async` modifier
and its `pos`/`end` span. -/
inductive InitializerKind
  | funcLike (isAsync : Bool) (pos stop : Nat)
  | otherInit
  deriving DecidableEq, Repr

/-- A declaration's binding name: a plain identifier or a binding pattern
(`ts.isIdentifier(decl.name)` false). -/
inductive BindingName
  | ident (name : String)
  | pattern
  deriving DecidableEq, Repr

structure VarDeclNode where
  binding : BindingName
  init : Option InitializerKind
  deriving DecidableEq, Repr

/-- An import clause, reduced to what the merge step reads from the AST
(lines 352-360): whether `importClause.namedBindings` exists and is
`NamedImports`, and if so the specifier names. -/
inductive ImportClauseKind
  | namedImports (names : List String)
  | otherClause
  deriving DecidableEq, Repr

/-- A top-level statement as reported by the external TypeScript parser.
Spans are the parser's `pos`/`end` (for functions) or `getStart()`/`getEnd()`
(for imports), as the source reads them; `moduleSpecifierText` is the
specifier's source text including its quotes. -/
inductive Statement
  | functionDecl (isExport isDefault isAsync : Bool) (name : Option String) (pos stop : Nat)
  | variableStatement (isExport isDefault : Bool) (decls : List VarDeclNode)
  | importDecl (moduleSpecifierText : String) (clause : ImportClauseKind) (startPos endPos : Nat)
  | otherStatement
  deriving DecidableEq, Repr

/-! ### Export extraction (the `visit` walk, index.ts lines 75-148) -/

/-- What `visit` collects from one exported top-level statement. -/
def extractFromStatement (source : String) (st : Statement) : List ExportedFunction :=
  match st with
  | .functionDecl isExport isDefault isAsync name? pos stop =>
      if isExport then
        match name? with
        | some n => [⟨n, pos, stop, isAsync, sliceStr source pos stop, isDefault⟩]
        | none => [⟨"_defaultExport", pos, stop, isAsync, sliceStr source pos stop, true⟩]
      else []
  | .variableStatement isExport isDefault decls =>
      if isExport then
        decls.flatMap (fun d =>
          match d.binding, d.init with
          | .ident vn, some (.funcLike isAsync pos stop) =>
              [⟨vn, pos, stop, isAsync, sliceStr source pos stop, isDefault⟩]
          | _, _ => [])
      else []
  | _ => []

/-- The ordered `exportedFns` list the traversal produces. -/
def collectExported (source : String) (stmts : List Statement) : List ExportedFunction :=
  stmts.flatMap (extractFromStatement source)

/-! ### Channel naming (index.ts lines 170-174) -/

/-- `` `${baseFileName}:${isDefault ? "default" : name}:${hashed}` `` -/
def channelFor (id : String) (fn : ExportedFunction) : String :=
  basename id ++ ":" ++ (if fn.isDefault then "default" else fn.name) ++ ":" ++
    createHashForText fn.originalBodyCode

/-! ### The generated code templates (transliterated from the backtick
template literals; `\x7b`/`\x7d` are the literal braces). -/

def mainAsyncHandlerText (channel fname : String) : String :=
  "\n    try \x7b\n      " ++
  "ipcMain.handle(\"" ++
  channel ++
  "\"" ++
  ", async (event, ...args) => \x7b\n        try \x7b\n          return await " ++
  fname ++
  "(...args);\n        \x7d catch (err) \x7b\n          console.error(\"Error in IPC handler for channel: " ++
  channel ++
  ":\", err);\n          throw err;\n        \x7d\n      \x7d);\n    \x7d catch (e) \x7b\n      console.error(\"Failed to register ipcMain handle for channel: " ++
  channel ++
  "\"" ++
  ", e);\n    \x7d"

def mainSyncHandlerText (channel fname : String) : String :=
  "\n    try \x7b\n      " ++
  "ipcMain.on(\"" ++
  channel ++
  "\"" ++
  ", (event, ...args) => \x7b\n        try \x7b\n          event.returnValue = " ++
  fname ++
  "(...args);\n        \x7d catch (err) \x7b\n          console.error(\"Error in IPC on for channel: " ++
  channel ++
  ":\", err);\n          // Return an error object, or handle gracefully\n          event.returnValue = \x7b error: err?.message \x7d;\n        \x7d\n      \x7d);\n    \x7d catch (e) \x7b\n      console.error(\"Failed to register ipcMain on for channel: " ++
  channel ++
  "\"" ++
  ", e);\n    \x7d"

def asyncBroadcastStubText (channel fname : String) : String :=
  "\n    export async function " ++
  fname ++
  "(...args) \x7b\n      const all = webContents.getAllWebContents();\n      return new Promise((resolve, reject) => \x7b\n        let resolved = false;\n        for (const wc of all) \x7b\n          // Listen for just the first successful reply from any webContents\n          " ++
  "wc.once(\"" ++
  channel ++
  "-reply\"" ++
  ", (event, resultOrError) => \x7b\n            if (!resolved) \x7b\n              resolved = true;\n              if (resultOrError && resultOrError.__ipcError) \x7b\n                reject(new Error(resultOrError.__ipcError));\n              \x7d else \x7b\n                resolve(resultOrError);\n              \x7d\n            \x7d\n          \x7d);\n          " ++
  "wc.send(\"" ++
  channel ++
  "\"" ++
  ", ...args);\n        \x7d\n        // If all windows are closed, this could hang, so you might want a timeout or check\n      \x7d);\n    \x7d"

def syncBroadcastStubText (channel fname : String) : String :=
  "\n    export function " ++
  fname ++
  "(...args) \x7b\n      const all = webContents.getAllWebContents();\n      for (const wc of all) \x7b\n        " ++
  "wc.send(\"" ++
  channel ++
  "\"" ++
  ", ...args);\n      \x7d\n    \x7d"

def rendererAsyncListenerText (channel fname : String) : String :=
  "\n    try \x7b\n      " ++
  "ipcRenderer.on(\"" ++
  channel ++
  "\"" ++
  ", async (event, ...args) => \x7b\n        try \x7b\n          const result = await " ++
  fname ++
  "(...args);\n          " ++
  "event.sender.send(\"" ++
  channel ++
  "-reply\"" ++
  ", result);\n        \x7d catch (err) \x7b\n          console.error(\"Error in renderer IPC function '" ++
  channel ++
  "':\", err);\n          " ++
  "event.sender.send(\"" ++
  channel ++
  "-reply\"" ++
  ", \x7b __ipcError: err?.message \x7d);\n        \x7d\n      \x7d);\n    \x7d catch (e) \x7b\n      console.error(\"Failed to register ipcRenderer.on for channel: " ++
  channel ++
  "\"" ++
  ", e);\n    \x7d"

def rendererSyncListenerText (channel fname : String) : String :=
  "\n    try \x7b\n      " ++
  "ipcRenderer.on(\"" ++
  channel ++
  "\"" ++
  ", (event, ...args) => \x7b\n        try \x7b\n          const result = " ++
  fname ++
  "(...args);\n          " ++
  "event.sender.send(\"" ++
  channel ++
  "-reply\"" ++
  ", result);\n        \x7d catch (err) \x7b\n          console.error(\"Error in renderer IPC function '" ++
  channel ++
  "':\", err);\n          " ++
  "event.sender.send(\"" ++
  channel ++
  "-reply\"" ++
  ", \x7b __ipcError: err?.message \x7d);\n        \x7d\n      \x7d);\n    \x7d catch (e) \x7b\n      console.error(\"Failed to register ipcRenderer.on for channel: " ++
  channel ++
  "\"" ++
  ", e);\n    \x7d"

def asyncInvokeStubText (channel fname : String) : String :=
  "\n    export async function " ++
  fname ++
  "(...args) \x7b\n      try \x7b\n        return await " ++
  "ipcRenderer.invoke(\"" ++
  channel ++
  "\"" ++
  ", ...args);\n      \x7d catch (err) \x7b\n        console.error(\"IPC invoke error on channel: " ++
  channel ++
  ":\", err);\n        throw err;\n      \x7d\n    \x7d"

def syncSendSyncStubText (channel fname : String) : String :=
  "\n    export function " ++
  fname ++
  "(...args) \x7b\n      try \x7b\n        return " ++
  "ipcRenderer.sendSync(\"" ++
  channel ++
  "\"" ++
  ", ...args);\n      \x7d catch (err) \x7b\n        console.error(\"IPC sendSync error on channel: " ++
  channel ++
  ":\", err);\n        return \x7b error: err?.message \x7d;\n      \x7d\n    \x7d"

/-- The generated block contains `ipcMain.handle(<channel>"`. -/
theorem mainAsyncHandlerText_key (channel fname : String) :
    ∃ u v, mainAsyncHandlerText channel fname =
      u ++ ("ipcMain.handle(\"" ++ channel ++ "\"") ++ v := by
  refine ⟨"\n    try \x7b\n      ",
      ", async (event, ...args) => \x7b\n        try \x7b\n          return await " ++
      fname ++
      "(...args);\n        \x7d catch (err) \x7b\n          console.error(\"Error in IPC handler for channel: " ++
      channel ++
      ":\", err);\n          throw err;\n        \x7d\n      \x7d);\n    \x7d catch (e) \x7b\n      console.error(\"Failed to register ipcMain handle for channel: " ++
      channel ++
      "\"" ++
      ", e);\n    \x7d", ?_⟩
  rw [mainAsyncHandlerText]
  simp only [String.append_assoc]

/-- The generated block contains `ipcMain.on(<channel>"`. -/
theorem mainSyncHandlerText_key (channel fname : String) :
    ∃ u v, mainSyncHandlerText channel fname =
      u ++ ("ipcMain.on(\"" ++ channel ++ "\"") ++ v := by
  refine ⟨"\n    try \x7b\n      ",
      ", (event, ...args) => \x7b\n        try \x7b\n          event.returnValue = " ++
      fname ++
      "(...args);\n        \x7d catch (err) \x7b\n          console.error(\"Error in IPC on for channel: " ++
      channel ++
      ":\", err);\n          // Return an error object, or handle gracefully\n          event.returnValue = \x7b error: err?.message \x7d;\n        \x7d\n      \x7d);\n    \x7d catch (e) \x7b\n      console.error(\"Failed to register ipcMain on for channel: " ++
      channel ++
      "\"" ++
      ", e);\n    \x7d", ?_⟩
  rw [mainSyncHandlerText]
  simp only [String.append_assoc]

/-- The generated block contains `wc.once(<channel>-reply"`. -/
theorem asyncBroadcastStubText_key_once (channel fname : String) :
    ∃ u v, asyncBroadcastStubText channel fname =
      u ++ ("wc.once(\"" ++ channel ++ "-reply\"") ++ v := by
  refine ⟨"\n    export async function " ++
      fname ++
      "(...args) \x7b\n      const all = webContents.getAllWebContents();\n      return new Promise((resolve, reject) => \x7b\n        let resolved = false;\n        for (const wc of all) \x7b\n          // Listen for just the first successful reply from any webContents\n          ",
      ", (event, resultOrError) => \x7b\n            if (!resolved) \x7b\n              resolved = true;\n              if (resultOrError && resultOrError.__ipcError) \x7b\n                reject(new Error(resultOrError.__ipcError));\n              \x7d else \x7b\n                resolve(resultOrError);\n              \x7d\n            \x7d\n          \x7d);\n          " ++
      "wc.send(\"" ++
      channel ++
      "\"" ++
      ", ...args);\n        \x7d\n        // If all windows are closed, this could hang, so you might want a timeout or check\n      \x7d);\n    \x7d", ?_⟩
  rw [asyncBroadcastStubText]
  simp only [String.append_assoc]

/-- The generated block contains `wc.send(<channel>"`. -/
theorem asyncBroadcastStubText_key_send (channel fname : String) :
    ∃ u v, asyncBroadcastStubText channel fname =
      u ++ ("wc.send(\"" ++ channel ++ "\"") ++ v := by
  refine ⟨"\n    export async function " ++
      fname ++
      "(...args) \x7b\n      const all = webContents.getAllWebContents();\n      return new Promise((resolve, reject) => \x7b\n        let resolved = false;\n        for (const wc of all) \x7b\n          // Listen for just the first successful reply from any webContents\n          " ++
      "wc.once(\"" ++
      channel ++
      "-reply\"" ++
      ", (event, resultOrError) => \x7b\n            if (!resolved) \x7b\n              resolved = true;\n              if (resultOrError && resultOrError.__ipcError) \x7b\n                reject(new Error(resultOrError.__ipcError));\n              \x7d else \x7b\n                resolve(resultOrError);\n              \x7d\n            \x7d\n          \x7d);\n          ",
      ", ...args);\n        \x7d\n        // If all windows are closed, this could hang, so you might want a timeout or check\n      \x7d);\n    \x7d", ?_⟩
  rw [asyncBroadcastStubText]
  simp only [String.append_assoc]

/-- The generated block contains `wc.send(<channel>"`. -/
theorem syncBroadcastStubText_key (channel fname : String) :
    ∃ u v, syncBroadcastStubText channel fname =
      u ++ ("wc.send(\"" ++ channel ++ "\"") ++ v := by
  refine ⟨"\n    export function " ++
      fname ++
      "(...args) \x7b\n      const all = webContents.getAllWebContents();\n      for (const wc of all) \x7b\n        ",
      ", ...args);\n      \x7d\n    \x7d", ?_⟩
  rw [syncBroadcastStubText]
  simp only [String.append_assoc]

/-- The generated block contains `ipcRenderer.on(<channel>"`. -/
theorem rendererAsyncListenerText_key_on (channel fname : String) :
    ∃ u v, rendererAsyncListenerText channel fname =
      u ++ ("ipcRenderer.on(\"" ++ channel ++ "\"") ++ v := by
  refine ⟨"\n    try \x7b\n      ",
      ", async (event, ...args) => \x7b\n        try \x7b\n          const result = await " ++
      fname ++
      "(...args);\n          " ++
      "event.sender.send(\"" ++
      channel ++
      "-reply\"" ++
      ", result);\n        \x7d catch (err) \x7b\n          console.error(\"Error in renderer IPC function '" ++
      channel ++
      "':\", err);\n          " ++
      "event.sender.send(\"" ++
      channel ++
      "-reply\"" ++
      ", \x7b __ipcError: err?.message \x7d);\n        \x7d\n      \x7d);\n    \x7d catch (e) \x7b\n      console.error(\"Failed to register ipcRenderer.on for channel: " ++
      channel ++
      "\"" ++
      ", e);\n    \x7d", ?_⟩
  rw [rendererAsyncListenerText]
  simp only [String.append_assoc]

/-- The generated block contains `event.sender.send(<channel>-reply"`. -/
theorem rendererAsyncListenerText_key_send (channel fname : String) :
    ∃ u v, rendererAsyncListenerText channel fname =
      u ++ ("event.sender.send(\"" ++ channel ++ "-reply\"") ++ v := by
  refine ⟨"\n    try \x7b\n      " ++
      "ipcRenderer.on(\"" ++
      channel ++
      "\"" ++
      ", async (event, ...args) => \x7b\n        try \x7b\n          const result = await " ++
      fname ++
      "(...args);\n          ",
      ", result);\n        \x7d catch (err) \x7b\n          console.error(\"Error in renderer IPC function '" ++
      channel ++
      "':\", err);\n          " ++
      "event.sender.send(\"" ++
      channel ++
      "-reply\"" ++
      ", \x7b __ipcError: err?.message \x7d);\n        \x7d\n      \x7d);\n    \x7d catch (e) \x7b\n      console.error(\"Failed to register ipcRenderer.on for channel: " ++
      channel ++
      "\"" ++
      ", e);\n    \x7d", ?_⟩
  rw [rendererAsyncListenerText]
  simp only [String.append_assoc]

/-- The generated block contains `ipcRenderer.on(<channel>"`. -/
theorem rendererSyncListenerText_key_on (channel fname : String) :
    ∃ u v, rendererSyncListenerText channel fname =
      u ++ ("ipcRenderer.on(\"" ++ channel ++ "\"") ++ v := by
  refine ⟨"\n    try \x7b\n      ",
      ", (event, ...args) => \x7b\n        try \x7b\n          const result = " ++
      fname ++
      "(...args);\n          " ++
      "event.sender.send(\"" ++
      channel ++
      "-reply\"" ++
      ", result);\n        \x7d catch (err) \x7b\n          console.error(\"Error in renderer IPC function '" ++
      channel ++
      "':\", err);\n          " ++
      "event.sender.send(\"" ++
      channel ++
      "-reply\"" ++
      ", \x7b __ipcError: err?.message \x7d);\n        \x7d\n      \x7d);\n    \x7d catch (e) \x7b\n      console.error(\"Failed to register ipcRenderer.on for channel: " ++
      channel ++
      "\"" ++
      ", e);\n    \x7d", ?_⟩
  rw [rendererSyncListenerText]
  simp only [String.append_assoc]

/-- The generated block contains `event.sender.send(<channel>-reply"`. -/
theorem rendererSyncListenerText_key_send (channel fname : String) :
    ∃ u v, rendererSyncListenerText channel fname =
      u ++ ("event.sender.send(\"" ++ channel ++ "-reply\"") ++ v := by
  refine ⟨"\n    try \x7b\n      " ++
      "ipcRenderer.on(\"" ++
      channel ++
      "\"" ++
      ", (event, ...args) => \x7b\n        try \x7b\n          const result = " ++
      fname ++
      "(...args);\n          ",
      ", result);\n        \x7d catch (err) \x7b\n          console.error(\"Error in renderer IPC function '" ++
      channel ++
      "':\", err);\n          " ++
      "event.sender.send(\"" ++
      channel ++
      "-reply\"" ++
      ", \x7b __ipcError: err?.message \x7d);\n        \x7d\n      \x7d);\n    \x7d catch (e) \x7b\n      console.error(\"Failed to register ipcRenderer.on for channel: " ++
      channel ++
      "\"" ++
      ", e);\n    \x7d", ?_⟩
  rw [rendererSyncListenerText]
  simp only [String.append_assoc]

/-- The generated block contains `ipcRenderer.invoke(<channel>"`. -/
theorem asyncInvokeStubText_key (channel fname : String) :
    ∃ u v, asyncInvokeStubText channel fname =
      u ++ ("ipcRenderer.invoke(\"" ++ channel ++ "\"") ++ v := by
  refine ⟨"\n    export async function " ++
      fname ++
      "(...args) \x7b\n      try \x7b\n        return await ",
      ", ...args);\n      \x7d catch (err) \x7b\n        console.error(\"IPC invoke error on channel: " ++
      channel ++
      ":\", err);\n        throw err;\n      \x7d\n    \x7d", ?_⟩
  rw [asyncInvokeStubText]
  simp only [String.append_assoc]

/-- The generated block contains `ipcRenderer.sendSync(<channel>"`. -/
theorem syncSendSyncStubText_key (channel fname : String) :
    ∃ u v, syncSendSyncStubText channel fname =
      u ++ ("ipcRenderer.sendSync(\"" ++ channel ++ "\"") ++ v := by
  refine ⟨"\n    export function " ++
      fname ++
      "(...args) \x7b\n      try \x7b\n        return ",
      ", ...args);\n      \x7d catch (err) \x7b\n        console.error(\"IPC sendSync error on channel: " ++
      channel ++
      ":\", err);\n        return \x7b error: err?.message \x7d;\n      \x7d\n    \x7d", ?_⟩
  rw [syncSendSyncStubText]
  simp only [String.append_assoc]

/-! ### MagicString edit buffer model -/

/-- The MagicString operations the transform performs. -/
inductive Edit
  | overwrite (start stop : Nat) (content : String)
  | append (content : String)
  | appendLeft (pos : Nat) (content : String)
  | prepend (content : String)
  deriving DecidableEq, Repr

/-- The per-function branch of the transform loop (index.ts lines 176-330):
one MagicString edit and the electron symbol added to
`electronImportsNeeded` in that branch. -/
def genFunctionEdit (context : Context) (isMainIpcFile isRendererIpcFile : Bool)
    (channel : String) (fn : ExportedFunction) : Edit × String :=
  match context with
  | .main =>
      if isMainIpcFile then
        (.append (if fn.isAsync then mainAsyncHandlerText channel fn.name
                  else mainSyncHandlerText channel fn.name), "ipcMain")
      else
        (.overwrite fn.start fn.stop
          (if fn.isAsync then asyncBroadcastStubText channel fn.name
           else syncBroadcastStubText channel fn.name), "webContents")
  | .renderer =>
      if isRendererIpcFile then
        (.append (if fn.isAsync then rendererAsyncListenerText channel fn.name
                  else rendererSyncListenerText channel fn.name), "ipcRenderer")
      else
        (.overwrite fn.start fn.stop
          (if fn.isAsync then asyncInvokeStubText channel fn.name
           else syncSendSyncStubText channel fn.name), "ipcRenderer")

/-! ### MagicString semantics
`applyEdits` renders the edit buffer: the prepends, then the original text
with each overwritten span replaced by its content and each `appendLeft`
insertion emitted just before its position, then the appends.  The walk is
fuel-based so the kernel can evaluate it. -/

def prependsOf (edits : List Edit) : String :=
  edits.foldl (fun acc e => match e with | .prepend c => c ++ acc | _ => acc) ""

def appendsOf (edits : List Edit) : String :=
  edits.foldl (fun acc e => match e with | .append c => acc ++ c | _ => acc) ""

/-- The `appendLeft` insertions at position `p`, in call order. -/
def insertsAt (edits : List Edit) (p : Nat) : String :=
  edits.foldl (fun acc e =>
    match e with
    | .appendLeft q c => if q = p then acc ++ c else acc
    | _ => acc) ""

/-- The first overwrite whose span starts at `p` (the transform never
issues two overwrites of the same span). -/
def overwriteAt (edits : List Edit) (p : Nat) : Option (Nat × String) :=
  edits.findSome? (fun e =>
    match e with
    | .overwrite s t c => if s = p then some (t, c) else none
    | _ => none)

def walkAux (src : List Char) (edits : List Edit) : Nat → Nat → String
  | 0, p => insertsAt edits p
  | fuel + 1, p =>
      if p < src.length then
        insertsAt edits p ++
        match overwriteAt edits p with
        | some (t, c) => c ++ walkAux src edits fuel (max t (p + 1))
        | none => String.singleton (src.getD p ' ') ++ walkAux src edits fuel (p + 1)
      else insertsAt edits p

/-- The rendered body from position `p` on. -/
def walkFrom (src : List Char) (edits : List Edit) (p : Nat) : String :=
  walkAux src edits (src.length - p) p

/-- `magicStr.toString()` after the listed operations. -/
def applyEdits (source : String) (edits : List Edit) : String :=
  prependsOf edits ++ walkFrom source.data edits 0 ++ appendsOf edits

/-! ### Textual import-merge machinery (index.ts lines 333-413)
The two regexes are modelled by deterministic scanners; both regexes are
deterministic because every repeated class is followed by a literal outside
the class. -/

def isJsSpace (c : Char) : Bool :=
  c == ' ' || c == '\t' || c == '\n' || c == '\r' || c == '\x0b' || c == '\x0c'

def isQuoteChar (c : Char) : Bool := c == '\'' || c == '"'

/-- `\w` of JS regexes. -/
def isWordChar (c : Char) : Bool := c.isAlphanum || c == '_'

/-- `moduleSpecifier.getText(...).replace(/['"]/g, "")`. -/
def stripQuotes (s : String) : String := ⟨s.data.filter (fun c => !isQuoteChar c)⟩

def dropLit (lit : List Char) (l : List Char) : Option (List Char) :=
  if lit.isPrefixOf l then some (l.drop lit.length) else none

/-- Expect one character of the class `p` (one regex character class). -/
def expectChar (p : Char → Bool) : List Char → Option (List Char)
  | c :: t => if p c then some t else none
  | [] => none

/-- `\s+` followed by the greedy rest of the run. -/
def skipWs1 : List Char → Option (List Char)
  | c :: t => if isJsSpace c then some (t.dropWhile isJsSpace) else none
  | [] => none

/-- Try `/import\s*\{\s*([^}]*)\}\s*from\s*['"]electron['"]/` at the head of
`l`; on success return the capture and the match length.  Each repeated
class is followed by a literal outside the class, so the greedy scan is
exactly the regex's match. -/
def parseNamedElectronAt (l : List Char) : Option (List Char × Nat) := do
  let l1 ← dropLit "import".data l
  let l2 := l1.dropWhile isJsSpace
  let l3 ← expectChar (fun c => c == '{') l2
  let l4 := l3.dropWhile isJsSpace
  let cap := l4.takeWhile (fun c => c != '}')
  let l5 := l4.dropWhile (fun c => c != '}')
  let l6 ← expectChar (fun c => c == '}') l5
  let l7 := l6.dropWhile isJsSpace
  let l8 ← dropLit "from".data l7
  let l9 := l8.dropWhile isJsSpace
  let l10 ← expectChar isQuoteChar l9
  let l11 ← dropLit "electron".data l10
  let l12 ← expectChar isQuoteChar l11
  return (cap, l.length - l12.length)

/-- Try `/import\s+(\w+)\s+from\s+['"]electron['"]/` at the head of `l`. -/
def parseDefaultElectronAt (l : List Char) : Option (List Char × Nat) := do
  let l1 ← dropLit "import".data l
  let l2 ← skipWs1 l1
  let word := l2.takeWhile isWordChar
  if word.isEmpty then none else do
  let l3 := l2.dropWhile isWordChar
  let l4 ← skipWs1 l3
  let l5 ← dropLit "from".data l4
  let l6 ← skipWs1 l5
  let l7 ← expectChar isQuoteChar l6
  let l8 ← dropLit "electron".data l7
  let l9 ← expectChar isQuoteChar l8
  return (word, l.length - l9.length)

/-- First (leftmost) match of `parse` in `l`: start index, capture, length. -/
def findMatchAux (parse : List Char → Option (List Char × Nat)) :
    List Char → Nat → Option (Nat × List Char × Nat)
  | [], i => (parse []).map (fun r => (i, r.1, r.2))
  | c :: t, i =>
      match parse (c :: t) with
      | some (cap, len) => some (i, cap, len)
      | none => findMatchAux parse t (i + 1)

def findMatch (parse : List Char → Option (List Char × Nat)) (l : List Char) :
    Option (Nat × List Char × Nat) :=
  findMatchAux parse l 0

/-- JS `String.prototype.split(",")`: split at every separator. -/
def splitOnCharList (sep : Char) : List Char → List (List Char)
  | [] => [[]]
  | c :: t =>
      let r := splitOnCharList sep t
      if c = sep then [] :: r
      else match r with
           | h :: t' => (c :: h) :: t'
           | [] => [[c]]

/-- JS `String.prototype.trim()` (ASCII whitespace). -/
def trimList (l : List Char) : List Char :=
  ((l.dropWhile isJsSpace).reverse.dropWhile isJsSpace).reverse

/-- `curlyMatch[1].split(",").map(s => s.trim()).filter(Boolean)`
(lines 375-378). -/
def parseNameList (capture : List Char) : List String :=
  ((splitOnCharList ',' capture).map trimList).filterMap
    (fun p => if p.isEmpty then none else some ⟨p⟩)

/-- Lines 381-385: push each needed symbol absent from the current list. -/
def mergeNames (existing needed : List String) : List String :=
  needed.foldl (fun acc n => if acc.contains n then acc else acc ++ [n]) existing

/-- JS `String.prototype.replace(pat, repl)` with a string pattern:
replace the first occurrence only. -/
def replaceFirstList : List Char → List Char → List Char → List Char
  | [], pat, repl => if pat.isEmpty then repl else []
  | h :: t, pat, repl =>
      if pat.isPrefixOf (h :: t) then repl ++ (h :: t).drop pat.length
      else h :: replaceFirstList t pat repl

/-- Replace `[idx, idx+len)` (a regex replace at a known match position). -/
def replaceRange (l : List Char) (idx len : Nat) (repl : List Char) : List Char :=
  l.take idx ++ repl ++ l.drop (idx + len)

/-- The electron `ImportDeclaration`s in statement order (lines 339-347):
clause plus `getStart()`/`getEnd()`. -/
def electronImportNodes (stmts : List Statement) :
    List (ImportClauseKind × Nat × Nat) :=
  stmts.filterMap (fun st =>
    match st with
    | .importDecl spec clause s e =>
        if stripQuotes spec = "electron" then some (clause, s, e) else none
    | _ => none)

/-- The `existingElectronImports` set (lines 350-361; collected by the source
but never read afterwards). -/
def existingElectronNamedImports (stmts : List Statement) : List String :=
  (electronImportNodes stmts).flatMap (fun n =>
    match n.1 with
    | .namedImports names => names
    | _ => [])

/-- `Array.prototype.join(", ")`. -/
def joinComma : List String → String
  | [] => ""
  | [x] => x
  | x :: xs => x ++ ", " ++ joinComma xs

/-- The rebuilt named-import statement `import { ns } from 'electron'`. -/
def mkNamedImport (ns : List String) : String :=
  "import \x7b " ++ joinComma ns ++ " \x7d from 'electron'"

/-- The named-import branch of the merge (lines 370-390): when the curly
regex matches, parse the existing symbol list, append the missing needed
symbols, rebuild the statement and replace the matched text. -/
def mergeNamedImportText (importText : String) (needed : List String) :
    Option String :=
  (findMatch parseNamedElectronAt importText.data).map (fun m =>
    let existingNames := parseNameList m.2.1
    let merged := mergeNames existingNames needed
    let newImport := mkNamedImport merged
    let matched : List Char := (importText.data.drop m.1).take m.2.2
    ⟨replaceFirstList importText.data matched newImport.data⟩)

/-- Step 4 of the transform (lines 333-413): the edits that insert or merge
the needed named imports from 'electron'. -/
def mergeElectronImports (source : String) (stmts : List Statement)
    (needed : List String) : List Edit :=
  match electronImportNodes stmts with
  | [] =>
      let neededText := joinComma needed
      if neededText = "" then []
      else [.prepend ("import \x7b " ++ neededText ++ " \x7d from 'electron';\n")]
  | first :: _ =>
      let startPos := first.2.1
      let endPos := first.2.2
      let importText := sliceStr source startPos endPos
      match mergeNamedImportText importText needed with
      | some newText => [.overwrite startPos endPos newText]
      | none =>
          let namedList := joinComma needed
          match findMatch parseDefaultElectronAt importText.data with
          | some (idx, word, len) =>
              let repl :=
                "import " ++ (⟨word⟩ : String) ++ ", \x7b " ++ namedList ++
                  " \x7d from 'electron'"
              [.overwrite startPos endPos
                ⟨replaceRange importText.data idx len repl.data⟩]
          | none =>
              [.appendLeft endPos
                ("\nimport \x7b " ++ namedList ++ " \x7d from 'electron';")]

/-! ### The plugin entry points -/

/-- Transliteration of `transformInclude` (index.ts lines 35-57). -/
def transformInclude (context : Context) (id : String) : Bool :=
  if !testIpcFile id then false
  else
    let isMainIpcFile := testMainIpcFile id
    let isRendererIpcFile := testRendererIpcFile id
    let shouldTransform :=
      (decide (context = Context.main) && (isMainIpcFile || isRendererIpcFile)) ||
      (decide (context = Context.renderer) && (isMainIpcFile || isRendererIpcFile))
    if !shouldTransform then false else true

/-- One iteration of the generation loop: record the function's edit and add
its electron symbol to `electronImportsNeeded` (insertion-ordered, as a JS
`Set` iterates). -/
def genStep (context : Context) (id : String)
    (acc : List Edit × List String) (fn : ExportedFunction) : List Edit × List String :=
  let r := genFunctionEdit context (testMainIpcFile id) (testRendererIpcFile id)
             (channelFor id fn) fn
  (acc.1 ++ [r.1], if acc.2.contains r.2 then acc.2 else acc.2 ++ [r.2])

/-- The per-file fold of the generation loop (index.ts lines 167-330). -/
def generationStep (context : Context) (id : String)
    (fns : List ExportedFunction) : List Edit × List String :=
  fns.foldl (genStep context id) ([], [])

/-- The complete edit list one run of the transform issues: the per-function
edits in extraction order, then the import-merge edits. -/
def transformEdits (context : Context) (source id : String)
    (stmts : List Statement) : List Edit :=
  (generationStep context id (collectExported source stmts)).1 ++
    mergeElectronImports source stmts
      (generationStep context id (collectExported source stmts)).2

/-- Transliteration of `transform` (index.ts lines 58-423): `none` models the
`return null` short-circuit when no qualifying export was extracted; the
returned string is `magicStr.toString()` (the source map is out of scope). -/
def transform (context : Context) (source id : String)
    (stmts : List Statement) : Option String :=
  if (collectExported source stmts).isEmpty then none
  else some (applyEdits source (transformEdits context source id stmts))

/-! ### Lemmas about the MagicString walk -/

theorem walkAux_congr (src : List Char) (edits : List Edit) :
    ∀ f₁ f₂ p, src.length - p ≤ f₁ → src.length - p ≤ f₂ →
      walkAux src edits f₁ p = walkAux src edits f₂ p := by
  intro f₁
  induction f₁ with
  | zero =>
      intro f₂ p h₁ h₂
      match f₂ with
      | 0 => rfl
      | f₂ + 1 =>
          have hp : ¬ p < src.length := by omega
          simp [walkAux, hp]
  | succ f₁ ih =>
      intro f₂ p h₁ h₂
      match f₂ with
      | 0 =>
          have hp : ¬ p < src.length := by omega
          simp [walkAux, hp]
      | f₂ + 1 =>
          by_cases hp : p < src.length
          · simp only [walkAux, hp, if_pos]
            cases hov : overwriteAt edits p with
            | some tc =>
                have := ih f₂ (max tc.1 (p + 1)) (by omega) (by omega)
                simp [this]
            | none =>
                have := ih f₂ (p + 1) (by omega) (by omega)
                simp [this]
          · simp [walkAux, hp]

/-- One-step unfolding of `walkFrom`. -/
theorem walkFrom_eq (src : List Char) (edits : List Edit) (p : Nat) :
    walkFrom src edits p =
      if p < src.length then
        insertsAt edits p ++
        match overwriteAt edits p with
        | some (t, c) => c ++ walkFrom src edits (max t (p + 1))
        | none => String.singleton (src.getD p ' ') ++ walkFrom src edits (p + 1)
      else insertsAt edits p := by
  by_cases hp : p < src.length
  · have hfuel : src.length - p = (src.length - p - 1) + 1 := by omega
    rw [if_pos hp]
    show walkAux src edits (src.length - p) p = _
    rw [hfuel]
    simp only [walkAux, hp, if_pos]
    cases hov : overwriteAt edits p with
    | some tc =>
        have := walkAux_congr src edits (src.length - p - 1) (src.length - max tc.1 (p + 1))
          (max tc.1 (p + 1)) (by omega) (by omega)
        simp [this, walkFrom]
    | none =>
        have := walkAux_congr src edits (src.length - p - 1) (src.length - (p + 1))
          (p + 1) (by omega) (by omega)
        simp [this, walkFrom]
  · rw [if_neg hp]
    show walkAux src edits (src.length - p) p = _
    have hfuel : src.length - p = 0 := by omega
    rw [hfuel]
    rfl

/-- Pairwise-disjointness relation between edits (only overwrites interact). -/
def owDisjoint : Edit → Edit → Prop
  | .overwrite s t _, .overwrite s' t' _ => t ≤ s' ∨ t' ≤ s
  | _, _ => True

theorem owDisjoint_symm : ∀ {a b : Edit}, owDisjoint a b → owDisjoint b a := by
  intro a b h
  cases a <;> cases b <;> simp [owDisjoint] at * <;> omega

/-- Well-placed edits: overwrite spans are nonempty, in bounds and pairwise
disjoint. The transform's edit lists satisfy this for well-formed inputs. -/
def EditsOk (len : Nat) (edits : List Edit) : Prop :=
  (∀ s t c, Edit.overwrite s t c ∈ edits → s < t ∧ t ≤ len) ∧
  List.Pairwise owDisjoint edits

theorem overwrite_unique {len : Nat} {edits : List Edit} (hok : EditsOk len edits)
    {s t c t' c'} (h1 : Edit.overwrite s t c ∈ edits)
    (h2 : Edit.overwrite s t' c' ∈ edits) : t' = t ∧ c' = c := by
  by_cases heq : Edit.overwrite s t c = Edit.overwrite s t' c'
  · injection heq with _ h₁ h₂
    exact ⟨h₁.symm, h₂.symm⟩
  · have hdisj := List.Pairwise.forall (fun a b h => owDisjoint_symm h) hok.2 h1 h2 heq
    have hv1 := hok.1 s t c h1
    have hv2 := hok.1 s t' c' h2
    simp [owDisjoint] at hdisj
    omega

theorem overwriteAt_mem {len : Nat} {edits : List Edit} (hok : EditsOk len edits)
    {s t c} (hmem : Edit.overwrite s t c ∈ edits) :
    overwriteAt edits s = some (t, c) := by
  induction edits with
  | nil => cases hmem
  | cons e rest ih =>
      rcases List.mem_cons.mp hmem with he | hrest
      · subst he
        simp [overwriteAt, List.findSome?_cons]
      · have hok' : EditsOk len rest := ⟨fun s' t' c' h => hok.1 s' t' c' (List.mem_cons_of_mem _ h),
          (List.pairwise_cons.mp hok.2).2⟩
        have htail := ih hok' hrest
        cases e with
        | overwrite s' t' c' =>
            by_cases hs : s' = s
            · subst hs
              have := overwrite_unique hok (List.mem_cons_self _ _) hmem
              simp [overwriteAt, List.findSome?_cons, this.1, this.2]
            · simpa [overwriteAt, List.findSome?_cons, hs] using htail
        | append c'' => simpa [overwriteAt, List.findSome?_cons] using htail
        | appendLeft p'' c'' => simpa [overwriteAt, List.findSome?_cons] using htail
        | prepend c'' => simpa [overwriteAt, List.findSome?_cons] using htail

theorem overwriteAt_none {edits : List Edit} {r : Nat}
    (h : ∀ s t c, Edit.overwrite s t c ∈ edits → s ≠ r) :
    overwriteAt edits r = none := by
  induction edits with
  | nil => rfl
  | cons e rest ih =>
      have htail := ih (fun s t c hm => h s t c (List.mem_cons_of_mem _ hm))
      cases e with
      | overwrite s t c =>
          have hne := h s t c (List.mem_cons_self _ _)
          simpa [overwriteAt, List.findSome?_cons, hne] using htail
      | append c => simpa [overwriteAt, List.findSome?_cons] using htail
      | appendLeft p c => simpa [overwriteAt, List.findSome?_cons] using htail
      | prepend c => simpa [overwriteAt, List.findSome?_cons] using htail

theorem walkFrom_end {src : List Char} {edits : List Edit} {p : Nat}
    (hp : ¬ p < src.length) : walkFrom src edits p = insertsAt edits p := by
  have h := walkFrom_eq src edits p
  rwa [if_neg hp] at h

theorem walkFrom_ow {src : List Char} {edits : List Edit} {p : Nat}
    (hp : p < src.length) {t : Nat} {c : String}
    (hov : overwriteAt edits p = some (t, c)) :
    walkFrom src edits p =
      insertsAt edits p ++ (c ++ walkFrom src edits (max t (p + 1))) := by
  have h := walkFrom_eq src edits p
  rw [if_pos hp, hov] at h
  exact h

theorem walkFrom_char {src : List Char} {edits : List Edit} {p : Nat}
    (hp : p < src.length) (hov : overwriteAt edits p = none) :
    walkFrom src edits p =
      insertsAt edits p ++
        (String.singleton (src.getD p ' ') ++ walkFrom src edits (p + 1)) := by
  have h := walkFrom_eq src edits p
  rw [if_pos hp, hov] at h
  exact h

/-- The walk from 0 reaches every position that is not strictly inside an
overwritten span. -/
theorem walk_reach (src : List Char) (edits : List Edit)
    (hok : EditsOk src.length edits) :
    ∀ p, p ≤ src.length →
      (∀ s t c, Edit.overwrite s t c ∈ edits → ¬(s < p ∧ p < t)) →
      ∃ A, walkFrom src edits 0 = A ++ walkFrom src edits p := by
  intro p
  induction p using Nat.strong_induction_on with
  | _ p ih =>
    intro hple hnint
    match p with
    | 0 => exact ⟨"", (String.empty_append _).symm⟩
    | q + 1 =>
      by_cases hcov : ∃ s t c, Edit.overwrite s t c ∈ edits ∧ s ≤ q ∧ q < t
      · obtain ⟨s, t, c, hm, hsq, hqt⟩ := hcov
        have hval := hok.1 s t c hm
        have ht : t = q + 1 := by
          have := hnint s t c hm
          omega
        have hs_nint : ∀ s' t' c', Edit.overwrite s' t' c' ∈ edits → ¬(s' < s ∧ s < t') := by
          intro s' t' c' hm' hand
          by_cases heq : Edit.overwrite s t c = Edit.overwrite s' t' c'
          · injection heq with e1 e2 e3
            omega
          · have hdisj := List.Pairwise.forall (fun a b h => owDisjoint_symm h) hok.2 hm hm' heq
            simp only [owDisjoint] at hdisj
            omega
        obtain ⟨A, hA⟩ := ih s (by omega) (by omega) hs_nint
        have hslt : s < src.length := by omega
        have hstep := walkFrom_ow hslt (overwriteAt_mem hok hm)
        have hmax : max t (s + 1) = t := by omega
        rw [hmax] at hstep
        refine ⟨A ++ (insertsAt edits s ++ c), ?_⟩
        rw [hA, hstep, ht]
        simp [String.append_assoc]
      · push_neg at hcov
        have hq_nint : ∀ s t c, Edit.overwrite s t c ∈ edits → ¬(s < q ∧ q < t) := by
          intro s t c hm hand
          have := hcov s t c hm (by omega)
          omega
        obtain ⟨A, hA⟩ := ih q (by omega) (by omega) hq_nint
        have hqlt : q < src.length := by omega
        have hnone : overwriteAt edits q = none := by
          refine overwriteAt_none ?_
          intro s t c hm hs
          subst hs
          have hval := hok.1 s t c hm
          have := hcov s t c hm (le_refl s)
          omega
        have hstep := walkFrom_char hqlt hnone
        refine ⟨A ++ (insertsAt edits q ++ String.singleton (src.getD q ' ')), ?_⟩
        rw [hA, hstep]
        simp [String.append_assoc]

/-- Across a span free of overwrite starts and of interior insertions, the
walk emits the original slice verbatim. -/
theorem walk_gap (src : List Char) (edits : List Edit) :
    ∀ d p, p + d ≤ src.length → 0 < d →
      (∀ r s t c, Edit.overwrite s t c ∈ edits → p ≤ r → r < p + d → s ≠ r) →
      (∀ r, p < r → r < p + d → insertsAt edits r = "") →
      walkFrom src edits p =
        insertsAt edits p ++ (⟨(src.drop p).take d⟩ : String) ++ walkFrom src edits (p + d) := by
  intro d
  induction d with
  | zero => omega
  | succ d ihd =>
    intro p hle hpos hstarts hins
    have hplt : p < src.length := by omega
    have hnone : overwriteAt edits p = none := by
      refine overwriteAt_none ?_
      intro s t c hm
      exact hstarts p s t c hm (le_refl p) (by omega)
    have hstep := walkFrom_char hplt hnone
    have hgd : src.getD p ' ' = src.get ⟨p, hplt⟩ := by
      simp [List.getD_eq_getElem?_getD, List.getElem?_eq_getElem hplt]
    have hchar : String.singleton (src.getD p ' ') = (⟨[src.get ⟨p, hplt⟩]⟩ : String) := by
      rw [hgd]
      rfl
    have hdrop : src.drop p = src.get ⟨p, hplt⟩ :: src.drop (p + 1) :=
      List.drop_eq_getElem_cons hplt
    match d with
    | 0 =>
        have htake : ((⟨(src.drop p).take (0 + 1)⟩ : String)) = (⟨[src.get ⟨p, hplt⟩]⟩ : String) := by
          rw [hdrop, List.take_succ_cons, List.take_zero]
        rw [hstep, hchar, htake]
        rw [String.append_assoc]
    | d' + 1 =>
        have hins' : ∀ r, p + 1 < r → r < (p + 1) + (d' + 1) → insertsAt edits r = "" := by
          intro r h1 h2
          exact hins r (by omega) (by omega)
        have hstarts' : ∀ r s t c, Edit.overwrite s t c ∈ edits →
            p + 1 ≤ r → r < (p + 1) + (d' + 1) → s ≠ r := by
          intro r s t c hm h1 h2
          exact hstarts r s t c hm (by omega) (by omega)
        have hrec := ihd (p + 1) (by omega) (by omega) hstarts' hins'
        have hinsmid : insertsAt edits (p + 1) = "" := hins (p + 1) (by omega) (by omega)
        rw [hinsmid] at hrec
        have harith : p + 1 + (d' + 1) = p + (d' + 1 + 1) := by omega
        rw [harith] at hrec
        have htake : ((⟨(src.drop p).take (d' + 1 + 1)⟩ : String)) =
            (⟨src.get ⟨p, hplt⟩ :: (src.drop (p + 1)).take (d' + 1)⟩ : String) := by
          rw [hdrop, List.take_succ_cons]
        rw [hstep, hrec, hchar, htake]
        refine String.ext ?_
        simp [String.empty_append]

/-! ### Content of appends and prepends in the final output -/

theorem appendsOf_foldl (edits : List Edit) :
    ∀ acc : String,
      edits.foldl (fun acc e => match e with | Edit.append c => acc ++ c | _ => acc) acc
        = acc ++ appendsOf edits := by
  induction edits with
  | nil => intro acc; simp [appendsOf]
  | cons e rest ih =>
      intro acc
      cases e with
      | append c =>
          show rest.foldl _ (acc ++ c) = _
          rw [ih (acc ++ c)]
          have h2 : appendsOf (Edit.append c :: rest) = c ++ appendsOf rest := by
            show rest.foldl _ ("" ++ c) = _
            rw [ih ("" ++ c), String.empty_append]
          rw [h2, String.append_assoc]
      | overwrite s t c =>
          show rest.foldl _ acc = _
          rw [ih acc]
          rfl
      | appendLeft q c =>
          show rest.foldl _ acc = _
          rw [ih acc]
          rfl
      | prepend c =>
          show rest.foldl _ acc = _
          rw [ih acc]
          rfl

theorem appendsOf_infix {edits : List Edit} {c : String} (h : Edit.append c ∈ edits) :
    ∃ x y, appendsOf edits = x ++ c ++ y := by
  induction edits with
  | nil => cases h
  | cons e rest ih =>
      rcases List.mem_cons.mp h with he | hrest
      · subst he
        refine ⟨"", appendsOf rest, ?_⟩
        show rest.foldl _ ("" ++ c) = _
        rw [appendsOf_foldl rest ("" ++ c), String.empty_append]
      · cases e with
        | append c' =>
            obtain ⟨x, y, hxy⟩ := ih hrest
            refine ⟨c' ++ x, y, ?_⟩
            show rest.foldl _ ("" ++ c') = _
            rw [appendsOf_foldl rest ("" ++ c'), String.empty_append, hxy]
            simp [String.append_assoc]
        | overwrite s t c' =>
            obtain ⟨x, y, hxy⟩ := ih hrest
            exact ⟨x, y, hxy⟩
        | appendLeft q c' =>
            obtain ⟨x, y, hxy⟩ := ih hrest
            exact ⟨x, y, hxy⟩
        | prepend c' =>
            obtain ⟨x, y, hxy⟩ := ih hrest
            exact ⟨x, y, hxy⟩

/-- Any appended registration block appears verbatim in the output. -/
theorem output_contains_append {source : String} {edits : List Edit} {c : String}
    (h : Edit.append c ∈ edits) :
    ∃ u v, applyEdits source edits = u ++ c ++ v := by
  obtain ⟨x, y, hxy⟩ := appendsOf_infix h
  refine ⟨prependsOf edits ++ walkFrom source.data edits 0 ++ x, y, ?_⟩
  rw [applyEdits, hxy]
  simp [String.append_assoc]

/-- Any overwrite's replacement text appears verbatim in the output, given
well-placed edits. -/
theorem output_contains_overwrite {source : String} {edits : List Edit}
    (hok : EditsOk source.data.length edits) {s t : Nat} {c : String}
    (hmem : Edit.overwrite s t c ∈ edits) :
    ∃ u v, applyEdits source edits = u ++ c ++ v := by
  have hval := hok.1 s t c hmem
  have hs_nint : ∀ s' t' c', Edit.overwrite s' t' c' ∈ edits → ¬(s' < s ∧ s < t') := by
    intro s' t' c' hm' hand
    by_cases heq : Edit.overwrite s t c = Edit.overwrite s' t' c'
    · injection heq with e1 e2 e3
      omega
    · have hdisj := List.Pairwise.forall (fun a b h => owDisjoint_symm h) hok.2 hmem hm' heq
      simp only [owDisjoint] at hdisj
      have hval' := hok.1 s' t' c' hm'
      omega
  obtain ⟨A, hA⟩ := walk_reach source.data edits hok s (by omega) hs_nint
  have hslt : s < source.data.length := by omega
  have hstep := walkFrom_ow hslt (overwriteAt_mem hok hmem)
  have hmax : max t (s + 1) = t := by omega
  rw [hmax] at hstep
  refine ⟨prependsOf edits ++ (A ++ insertsAt edits s),
          walkFrom source.data edits t ++ appendsOf edits, ?_⟩
  rw [applyEdits, hA, hstep]
  simp [String.append_assoc]

/-- Any original span free of overwrites and interior insertions appears
verbatim in the output. -/
theorem output_contains_slice {source : String} {edits : List Edit}
    (hok : EditsOk source.data.length edits) {p q : Nat} (hpq : p < q)
    (hq : q ≤ source.data.length)
    (hgap : ∀ s t c, Edit.overwrite s t c ∈ edits → t ≤ p ∨ q ≤ s)
    (hins : ∀ r, p < r → r < q → insertsAt edits r = "") :
    ∃ u v, applyEdits source edits =
      u ++ (⟨(source.data.drop p).take (q - p)⟩ : String) ++ v := by
  have hp_nint : ∀ s t c, Edit.overwrite s t c ∈ edits → ¬(s < p ∧ p < t) := by
    intro s t c hm hand
    have hval := hok.1 s t c hm
    rcases hgap s t c hm with h | h <;> omega
  obtain ⟨A, hA⟩ := walk_reach source.data edits hok p (by omega) hp_nint
  have hstarts : ∀ r s t c, Edit.overwrite s t c ∈ edits → p ≤ r → r < p + (q - p) → s ≠ r := by
    intro r s t c hm h1 h2 hs
    subst hs
    have hval := hok.1 s t c hm
    rcases hgap s t c hm with h | h <;> omega
  have hins' : ∀ r, p < r → r < p + (q - p) → insertsAt edits r = "" := by
    intro r h1 h2
    exact hins r h1 (by omega)
  have hgaplem := walk_gap source.data edits (q - p) p (by omega) (by omega) hstarts hins'
  refine ⟨prependsOf edits ++ (A ++ insertsAt edits p),
          walkFrom source.data edits (p + (q - p)) ++ appendsOf edits, ?_⟩
  rw [applyEdits, hA, hgaplem]
  simp [String.append_assoc]

/-! ### Runtime models of the generated code
Each definition is the shallow semantics of one generated template, with the
host primitives abstracted: a handler is a function that returns a value or
throws a message, message delivery is an explicit list of events. -/

/-- A value crossing the IPC boundary: a plain result, the sync error
sentinel `\x7b error: msg \x7d`, or the async sentinel
`\x7b __ipcError: msg \x7d`. -/
inductive IpcPayload (α : Type)
  | val (v : α)
  | errObj (msg : String)
  | ipcErrObj (msg : String)
  deriving DecidableEq, Repr

/-- JS `try/catch` where the thrown error carries a message string. -/
def tryCatch {β : Type} (body : Except String β)
    (handler : String → Except String β) : Except String β :=
  match body with
  | .ok b => .ok b
  | .error m => handler m

/-- Model of the callback registered by `mainAsyncHandlerText`: return the
awaited result; on a thrown error, log and rethrow. -/
def mainAsyncHandlerRun {α : Type} (f : List α → Except String α)
    (args : List α) : Except String α :=
  tryCatch (f args) (fun m => Except.error m)

/-- Model of the callback registered by `mainSyncHandlerText`: the final
`event.returnValue`; a thrown error is converted into the
`\x7b error: msg \x7d` payload, never rethrown. -/
def mainSyncOnRun {α : Type} (f : List α → Except String α)
    (args : List α) : Except String (IpcPayload α) :=
  tryCatch ((f args).map IpcPayload.val)
    (fun m => Except.ok (IpcPayload.errObj m))

/-- Model of the callback registered by `rendererAsyncListenerText`: the
reply message it sends (reply channel, payload); errors become the
`__ipcError` sentinel on the reply channel. -/
def rendererAsyncOnRun {α : Type} (channel : String)
    (f : List α → Except String α) (args : List α) :
    Except String (String × IpcPayload α) :=
  tryCatch ((f args).map (fun v => (channel ++ "-reply", IpcPayload.val v)))
    (fun m => Except.ok (channel ++ "-reply", IpcPayload.ipcErrObj m))

/-- Model of the callback registered by `rendererSyncListenerText` (same
shape as the async listener, without the `await`). -/
def rendererSyncOnRun {α : Type} (channel : String)
    (f : List α → Except String α) (args : List α) :
    Except String (String × IpcPayload α) :=
  tryCatch ((f args).map (fun v => (channel ++ "-reply", IpcPayload.val v)))
    (fun m => Except.ok (channel ++ "-reply", IpcPayload.ipcErrObj m))

/-- Model of the body of `asyncInvokeStubText`: pass the settled result of
`ipcRenderer.invoke` through; a rejection is logged and rethrown. -/
def asyncInvokeStubRun {α : Type} (invokeResult : Except String α) :
    Except String α :=
  tryCatch invokeResult (fun m => Except.error m)

/-- Model of the body of `syncSendSyncStubText`: return what
`ipcRenderer.sendSync` returned; a thrown error becomes the
`\x7b error: msg \x7d` object. -/
def syncSendSyncStubRun {α : Type}
    (sendResult : Except String (IpcPayload α)) : IpcPayload α :=
  match sendResult with
  | .ok p => p
  | .error m => .errObj m

/-- The promise state inside `asyncBroadcastStubText`: the `resolved` flag
and how the promise settled, if it did. -/
structure PromiseState (α : Type) where
  resolved : Bool
  settled : Option (Except String (IpcPayload α))

/-- One `wc.once(channel-reply, ...)` callback firing: settle on the first
delivered reply, reject on the `__ipcError` sentinel, ignore the rest. -/
def broadcastReplyHandler {α : Type} (st : PromiseState α)
    (reply : IpcPayload α) : PromiseState α :=
  if st.resolved then st
  else { resolved := true,
         settled := some (match reply with
           | IpcPayload.ipcErrObj m => Except.error m
           | r => Except.ok r) }

/-- The `wc.send(channel, ...)` loop of both broadcaster stubs: the same
channel message goes to every currently open webContents. -/
def broadcastSends {W : Type} (wcs : List W) (channel : String) :
    List (W × String) :=
  wcs.map (fun w => (w, channel))

/-- The async broadcaster's promise after a sequence of delivered replies. -/
def runAsyncBroadcast {α : Type} (replies : List (IpcPayload α)) :
    PromiseState α :=
  replies.foldl broadcastReplyHandler ⟨false, none⟩

/-- Model of the body of `syncBroadcastStubText`: send to every open
webContents and return `undefined` (`none`); no listener, no payload. -/
def syncBroadcastRun {W α : Type} (wcs : List W) (channel : String) :
    List (W × String) × Option α :=
  (broadcastSends wcs channel, none)

/-! ### Structure of the transform's edit list -/

theorem genStep_fst (ctx : Context) (id : String) :
    ∀ (fns : List ExportedFunction) (acc : List Edit × List String),
      (fns.foldl (genStep ctx id) acc).1 =
        acc.1 ++ fns.map (fun fn =>
          (genFunctionEdit ctx (testMainIpcFile id) (testRendererIpcFile id)
            (channelFor id fn) fn).1) := by
  intro fns
  induction fns with
  | nil => intro acc; simp
  | cons fn rest ih =>
      intro acc
      rw [List.foldl_cons, ih]
      simp [genStep]

theorem generationStep_fst (ctx : Context) (id : String)
    (fns : List ExportedFunction) :
    (generationStep ctx id fns).1 =
      fns.map (fun fn =>
        (genFunctionEdit ctx (testMainIpcFile id) (testRendererIpcFile id)
          (channelFor id fn) fn).1) := by
  rw [generationStep, genStep_fst]
  rfl

/-- Each per-function edit is an append (register-locally cells) or an
overwrite of exactly that function's recorded span (stub cells). -/
theorem genFunctionEdit_shape (ctx : Context) (m r : Bool) (channel : String)
    (fn : ExportedFunction) :
    (∃ c, (genFunctionEdit ctx m r channel fn).1 = Edit.append c) ∨
    (∃ c, (genFunctionEdit ctx m r channel fn).1 =
        Edit.overwrite fn.start fn.stop c) := by
  cases ctx <;> cases m <;> cases r <;> cases fn.isAsync <;>
    simp [genFunctionEdit]

/-- The merge step edits only the first electron import's span (or inserts
just after it), or prepends a brand-new statement. -/
theorem mergeElectronImports_shape (source : String) (stmts : List Statement)
    (needed : List String) :
    ∀ e ∈ mergeElectronImports source stmts needed,
      (∃ c, e = Edit.prepend c) ∨
      (∃ first rest, electronImportNodes stmts = first :: rest ∧
        ((∃ c, e = Edit.overwrite first.2.1 first.2.2 c) ∨
         (∃ c, e = Edit.appendLeft first.2.2 c))) := by
  intro e he
  rw [mergeElectronImports] at he
  cases hnodes : electronImportNodes stmts with
  | nil =>
      rw [hnodes] at he
      by_cases hempty : joinComma needed = ""
      · simp [hempty] at he
      · simp [hempty] at he
        exact Or.inl ⟨_, he⟩
  | cons first rest =>
      rw [hnodes] at he
      refine Or.inr ⟨first, rest, rfl, ?_⟩
      cases hm1 : mergeNamedImportText (sliceStr source first.2.1 first.2.2) needed with
      | some t1 =>
          simp [hm1] at he
          exact Or.inl ⟨_, he⟩
      | none =>
          cases hm2 : findMatch parseDefaultElectronAt (sliceStr source first.2.1 first.2.2).data with
          | some m2 =>
              simp [hm1, hm2] at he
              exact Or.inl ⟨_, he⟩
          | none =>
              simp [hm1, hm2] at he
              exact Or.inr ⟨_, he⟩

/-- Well-formedness of the parser-reported spans: function spans are
nonempty, in bounds and pairwise disjoint, and electron import spans are
nonempty, in bounds and disjoint from every function span. -/
def SpansOk (source : String) (stmts : List Statement) : Prop :=
  (∀ fn ∈ collectExported source stmts,
      fn.start < fn.stop ∧ fn.stop ≤ source.data.length) ∧
  List.Pairwise (fun a b => a.stop ≤ b.start ∨ b.stop ≤ a.start)
    (collectExported source stmts) ∧
  (∀ n ∈ electronImportNodes stmts,
      n.2.1 < n.2.2 ∧ n.2.2 ≤ source.data.length ∧
      ∀ fn ∈ collectExported source stmts,
        n.2.2 ≤ fn.start ∨ fn.stop ≤ n.2.1)

/-- Lists of length at most one are trivially pairwise related. -/
theorem pairwise_of_singleton {R : Edit → Edit → Prop} :
    ∀ {l : List Edit}, l.length ≤ 1 → List.Pairwise R l := by
  intro l hl
  match l, hl with
  | [], _ => exact List.Pairwise.nil
  | [a], _ => exact List.pairwise_singleton R a

theorem mergeElectronImports_len (source : String) (stmts : List Statement)
    (needed : List String) :
    (mergeElectronImports source stmts needed).length ≤ 1 := by
  rw [mergeElectronImports]
  cases hnodes : electronImportNodes stmts with
  | nil =>
      by_cases hempty : joinComma needed = "" <;> simp [hempty]
  | cons first rest =>
      cases hm1 : mergeNamedImportText (sliceStr source first.2.1 first.2.2) needed with
      | some t1 => simp [hm1]
      | none =>
          cases hm2 : findMatch parseDefaultElectronAt (sliceStr source first.2.1 first.2.2).data with
          | some m2 => simp [hm1, hm2]
          | none => simp [hm1, hm2]

/-- The transform's full edit list is well-placed for well-formed spans. -/
theorem transform_editsOk (ctx : Context) (source id : String)
    (stmts : List Statement) (needed : List String)
    (h : SpansOk source stmts) :
    EditsOk source.data.length
      ((generationStep ctx id (collectExported source stmts)).1 ++
        mergeElectronImports source stmts needed) := by
  obtain ⟨hb, hpw, himp⟩ := h
  have hgen := generationStep_fst ctx id (collectExported source stmts)
  constructor
  · intro s t c hmem
    rcases List.mem_append.mp hmem with hg | hm
    · rw [hgen] at hg
      obtain ⟨fn, hfn, he⟩ := List.mem_map.mp hg
      rcases genFunctionEdit_shape ctx (testMainIpcFile id) (testRendererIpcFile id)
          (channelFor id fn) fn with ⟨c', hc⟩ | ⟨c', hc⟩
      · rw [hc] at he; cases he
      · rw [hc] at he
        injection he with h1 h2 h3
        subst h1; subst h2
        exact hb fn hfn
    · rcases mergeElectronImports_shape source stmts needed _ hm with ⟨c', hc⟩ | ⟨first, rest, hn, hsub⟩
      · cases hc.symm.trans rfl
      · rcases hsub with ⟨c', hc⟩ | ⟨c', hc⟩
        · injection hc.symm.trans rfl with h1 h2 h3
          subst h1; subst h2
          have hfirst : first ∈ electronImportNodes stmts := by
            rw [hn]; exact List.mem_cons_self _ _
          exact ⟨(himp first hfirst).1, (himp first hfirst).2.1⟩
        · cases hc.symm.trans rfl
  · rw [List.pairwise_append]
    refine ⟨?_, ?_, ?_⟩
    · rw [hgen]
      refine List.Pairwise.map _ ?_ hpw
      intro a b hab
      rcases genFunctionEdit_shape ctx (testMainIpcFile id) (testRendererIpcFile id)
          (channelFor id a) a with ⟨ca, hca⟩ | ⟨ca, hca⟩ <;>
        rcases genFunctionEdit_shape ctx (testMainIpcFile id) (testRendererIpcFile id)
            (channelFor id b) b with ⟨cb, hcb⟩ | ⟨cb, hcb⟩ <;>
        rw [hca, hcb] <;> simp [owDisjoint]
      exact hab
    · exact pairwise_of_singleton (mergeElectronImports_len source stmts needed)
    · intro a ha b hb2
      rcases mergeElectronImports_shape source stmts needed _ hb2 with ⟨c', hc⟩ | ⟨first, rest, hn, hsub⟩
      · rw [hc]
        cases a <;> simp [owDisjoint]
      · rw [hgen] at ha
        obtain ⟨fn, hfn, he⟩ := List.mem_map.mp ha
        rcases hsub with ⟨c', hc⟩ | ⟨c', hc⟩
        · rcases genFunctionEdit_shape ctx (testMainIpcFile id) (testRendererIpcFile id)
              (channelFor id fn) fn with ⟨ca, hca⟩ | ⟨ca, hca⟩
          · rw [hc, ← he, hca]
            simp [owDisjoint]
          · rw [hc, ← he, hca]
            simp only [owDisjoint]
            have hfirst : first ∈ electronImportNodes stmts := by
              rw [hn]; exact List.mem_cons_self _ _
            rcases (himp first hfirst).2.2 fn hfn with h | h
            · right; omega
            · left; omega
        · rw [hc, ← he]
          rcases genFunctionEdit_shape ctx (testMainIpcFile id) (testRendererIpcFile id)
              (channelFor id fn) fn with ⟨ca, hca⟩ | ⟨ca, hca⟩ <;>
            rw [hca] <;> simp [owDisjoint]

/-- Every extracted record's `originalBodyCode` is the slice of the original
source over its own recorded span. -/
theorem collectExported_body (source : String) (stmts : List Statement) :
    ∀ fn ∈ collectExported source stmts,
      fn.originalBodyCode = sliceStr source fn.start fn.stop := by
  intro fn hfn
  rw [collectExported] at hfn
  obtain ⟨st, hst, hfn2⟩ := List.mem_flatMap.mp hfn
  cases st with
  | functionDecl isExport isDefault isAsync name? pos stop =>
      by_cases he : isExport
      · cases name? with
        | some n =>
            simp [extractFromStatement, he] at hfn2
            subst hfn2; rfl
        | none =>
            simp [extractFromStatement, he] at hfn2
            subst hfn2; rfl
      · simp [extractFromStatement, he] at hfn2
  | variableStatement isExport isDefault decls =>
      by_cases he : isExport
      · simp only [extractFromStatement, he, if_true] at hfn2
        obtain ⟨d, hd, hfn3⟩ := List.mem_flatMap.mp hfn2
        cases hbind : d.binding with
        | ident vn =>
            cases hinit : d.init with
            | some ik =>
                cases ik with
                | funcLike ia pos stop =>
                    rw [hbind, hinit] at hfn3
                    simp at hfn3
                    subst hfn3; rfl
                | otherInit =>
                    rw [hbind, hinit] at hfn3
                    simp at hfn3
            | none =>
                rw [hbind, hinit] at hfn3
                simp at hfn3
        | pattern =>
            rw [hbind] at hfn3
            cases d.init <;> simp at hfn3
      · simp [extractFromStatement, he] at hfn2
  | importDecl spec clause s e => simp [extractFromStatement] at hfn2
  | otherStatement => simp [extractFromStatement] at hfn2

/-! ### The claims -/

/-- C2: for every extracted function the channel is
`<fileBaseName>:<nameSegment>:<hash12>`, where the name segment is
`"default"` for default exports and the declared identifier otherwise, and
`hash12` is the first 12 hex digits of the SHA-256 digest of the function's
original source-text slice; the channel depends only on the file's base
name, the name segment and the byte-identical body slice, hence is stable
across invocations and unrelated file changes. -/
theorem channel_shape_and_determinism :
    (∀ source stmts fn, fn ∈ collectExported source stmts →
        fn.originalBodyCode = sliceStr source fn.start fn.stop) ∧
    (∀ id fn, channelFor id fn =
        basename id ++ ":" ++ (if fn.isDefault then "default" else fn.name) ++ ":" ++
          (⟨(sha256Hex (utf8Bytes fn.originalBodyCode)).data.take 12⟩ : String)) ∧
    (∀ id₁ id₂ fn₁ fn₂, basename id₁ = basename id₂ →
        (if fn₁.isDefault then "default" else fn₁.name) =
          (if fn₂.isDefault then "default" else fn₂.name) →
        fn₁.originalBodyCode = fn₂.originalBodyCode →
        channelFor id₁ fn₁ = channelFor id₂ fn₂) := by
  refine ⟨collectExported_body, fun id fn => rfl, ?_⟩
  intro id₁ id₂ fn₁ fn₂ h1 h2 h3
  rw [channelFor, channelFor, h1, h2, createHashForText, createHashForText, h3]

set_option maxRecDepth 8000 in
/-- Witness for C2 at concrete inputs: the same basename, name and body give
the same channel from different paths and spans, and the channel equals the
exact SHA-256-derived literal. -/
theorem channel_shape_and_determinism_witness :
    channelFor "src/foo.main.ipc.ts"
        ⟨"bar", 0, 40, true, "export async function bar(x)\x7breturn x+1\x7d", false⟩ =
      channelFor "other/foo.main.ipc.ts"
        ⟨"bar", 7, 47, true, "export async function bar(x)\x7breturn x+1\x7d", false⟩ ∧
    channelFor "src/foo.main.ipc.ts"
        ⟨"bar", 0, 40, true, "export async function bar(x)\x7breturn x+1\x7d", false⟩ =
      "foo.main.ipc.ts:bar:7cebadae8464" := by
  constructor
  · exact channel_shape_and_determinism.2.2 _ _ _ _ (by decide) (by decide) rfl
  · decide

/-- C3: a file whose name matches neither `*.main.ipc.(ts|js)` nor
`*.renderer.ipc.(ts|js)` is never transformed (`transformInclude` is
false), and when extraction yields zero qualifying exports the transform
returns `null`, leaving the file unmodified. -/
theorem include_and_noop :
    ∀ (ctx : Context) (id source : String) (stmts : List Statement),
      (¬(endsWithStr id ".main.ipc.ts" = true ∨ endsWithStr id ".main.ipc.js" = true ∨
          endsWithStr id ".renderer.ipc.ts" = true ∨ endsWithStr id ".renderer.ipc.js" = true) →
        transformInclude ctx id = false) ∧
      (collectExported source stmts = [] → transform ctx source id stmts = none) := by
  intro ctx id source stmts
  constructor
  · intro h
    push_neg at h
    obtain ⟨h1, h2, h3, h4⟩ := h
    have hm : testMainIpcFile id = false := by
      rw [testMainIpcFile]
      simp [Bool.or_eq_false_iff]
      exact ⟨by simpa using h1, by simpa using h2⟩
    have hr : testRendererIpcFile id = false := by
      rw [testRendererIpcFile]
      simp [Bool.or_eq_false_iff]
      exact ⟨by simpa using h3, by simpa using h4⟩
    rw [transformInclude]
    cases testIpcFile id <;> simp [hm, hr]
  · intro h
    rw [transform, h]
    rfl

/-- Witness for C3: a plain `.ts` file is excluded, and a matching file with
no qualifying export is returned untouched. -/
theorem include_and_noop_witness :
    transformInclude Context.main "src/util.ts" = false ∧
    transform Context.main "const x = 1" "src/a.main.ipc.ts" [Statement.otherStatement] = none := by
  constructor
  · exact (include_and_noop Context.main "src/util.ts" "" []).1 (by decide)
  · exact (include_and_noop Context.main "src/a.main.ipc.ts" "const x = 1"
      [Statement.otherStatement]).2 (by decide)

/-- If no `appendLeft` edit targets `r`, nothing is inserted at `r`. -/
theorem insertsAt_empty {r : Nat} :
    ∀ {edits : List Edit}, (∀ q c, Edit.appendLeft q c ∈ edits → q ≠ r) →
      insertsAt edits r = "" := by
  suffices haux : ∀ (edits : List Edit),
      (∀ q c, Edit.appendLeft q c ∈ edits → q ≠ r) →
      ∀ acc : String,
        edits.foldl (fun acc e => match e with
          | Edit.appendLeft q c => if q = r then acc ++ c else acc
          | _ => acc) acc = acc by
    intro edits h
    exact haux edits h ""
  intro edits
  induction edits with
  | nil => intro h acc; rfl
  | cons e rest ih =>
      intro h acc
      have htail := ih (fun q' c' hm => h q' c' (List.mem_cons_of_mem _ hm))
      cases e with
      | appendLeft q c =>
          have hq : q ≠ r := h q c (List.mem_cons_self _ _)
          show rest.foldl _ (if q = r then acc ++ c else acc) = acc
          rw [if_neg hq]
          exact htail acc
      | overwrite s t c => exact htail acc
      | append c => exact htail acc
      | prepend c => exact htail acc

/-- Every overwrite in the transform's edit list is either a stub replacing
one extracted function's exact span, or the rewritten first electron
import. -/
theorem transformEdits_overwrites (ctx : Context) (source id : String)
    (stmts : List Statement) :
    ∀ s t c, Edit.overwrite s t c ∈ transformEdits ctx source id stmts →
      (∃ fn ∈ collectExported source stmts,
        Edit.overwrite s t c =
          (genFunctionEdit ctx (testMainIpcFile id) (testRendererIpcFile id)
            (channelFor id fn) fn).1 ∧
        s = fn.start ∧ t = fn.stop) ∨
      (∃ first rest, electronImportNodes stmts = first :: rest ∧
        s = first.2.1 ∧ t = first.2.2) := by
  intro s t c hmem
  rw [transformEdits] at hmem
  rcases List.mem_append.mp hmem with hg | hm
  · rw [generationStep_fst] at hg
    obtain ⟨fn, hfn, he⟩ := List.mem_map.mp hg
    rcases genFunctionEdit_shape ctx (testMainIpcFile id) (testRendererIpcFile id)
        (channelFor id fn) fn with ⟨c', hc⟩ | ⟨c', hc⟩
    · rw [hc] at he; cases he
    · have hee := he.symm.trans hc
      injection hee with h1 h2 h3
      exact Or.inl ⟨fn, hfn, he.symm, h1, h2⟩
  · rcases mergeElectronImports_shape source stmts _ _ hm with ⟨c', hc⟩ | ⟨first, rest, hn, hsub⟩
    · cases hc
    · rcases hsub with ⟨c', hc⟩ | ⟨c', hc⟩
      · injection hc with h1 h2 h3
        exact Or.inr ⟨first, rest, hn, h1, h2⟩
      · cases hc

/-- Every insertion in the transform's edit list sits exactly at the end of
the first electron import's span. -/
theorem transformEdits_appendLefts (ctx : Context) (source id : String)
    (stmts : List Statement) :
    ∀ q c, Edit.appendLeft q c ∈ transformEdits ctx source id stmts →
      ∃ first rest, electronImportNodes stmts = first :: rest ∧ q = first.2.2 := by
  intro q c hmem
  rw [transformEdits] at hmem
  rcases List.mem_append.mp hmem with hg | hm
  · rw [generationStep_fst] at hg
    obtain ⟨fn, hfn, he⟩ := List.mem_map.mp hg
    rcases genFunctionEdit_shape ctx (testMainIpcFile id) (testRendererIpcFile id)
        (channelFor id fn) fn with ⟨c', hc⟩ | ⟨c', hc⟩ <;> rw [hc] at he <;> cases he
  · rcases mergeElectronImports_shape source stmts _ _ hm with ⟨c', hc⟩ | ⟨first, rest, hn, hsub⟩
    · cases hc
    · rcases hsub with ⟨c', hc⟩ | ⟨c', hc⟩
      · cases hc
      · injection hc with h1 h2
        exact ⟨first, rest, hn, h1⟩

/-- The transform's edit list is well-placed under `SpansOk`. -/
theorem transformEdits_ok (ctx : Context) (source id : String)
    (stmts : List Statement) (h : SpansOk source stmts) :
    EditsOk source.data.length (transformEdits ctx source id stmts) :=
  transform_editsOk ctx source id stmts _ h

/-- Nothing is inserted at a position other than the first electron
import's end. -/
theorem transformEdits_inserts_empty (ctx : Context) (source id : String)
    (stmts : List Statement) (r : Nat)
    (hr : ∀ n rest, electronImportNodes stmts = n :: rest → r ≠ n.2.2) :
    insertsAt (transformEdits ctx source id stmts) r = "" := by
  refine insertsAt_empty ?_
  intro q c hm
  obtain ⟨first, rest, hn, hq⟩ := transformEdits_appendLefts ctx source id stmts q c hm
  subst hq
  exact fun he => hr first rest hn he.symm

/-- When a transform run produced output, the output is the rendered edit
list and extraction was nonempty. -/
theorem transform_some (ctx : Context) (source id : String)
    (stmts : List Statement) (out : String)
    (h : transform ctx source id stmts = some out) :
    out = applyEdits source (transformEdits ctx source id stmts) := by
  rw [transform] at h
  by_cases hemp : (collectExported source stmts).isEmpty
  · rw [if_pos hemp] at h; cases h
  · rw [if_neg hemp] at h
    injection h with h
    exact h.symm

/-- C9: the transform touches original bytes only inside an extracted
function's recorded span or inside the first electron import's span: every
edit is a prepend, an append, an overwrite of one of those spans, or an
insertion directly after the first electron import; and for any original
interval clear of those spans, the original characters reappear contiguous
and unchanged in the output. -/
theorem frame_preservation :
    ∀ (ctx : Context) (source id : String) (stmts : List Statement) (out : String),
      SpansOk source stmts →
      transform ctx source id stmts = some out →
      (∀ e ∈ transformEdits ctx source id stmts,
        (∃ c, e = Edit.prepend c) ∨ (∃ c, e = Edit.append c) ∨
        (∃ fn ∈ collectExported source stmts, ∃ c,
            e = Edit.overwrite fn.start fn.stop c) ∨
        (∃ first rest, electronImportNodes stmts = first :: rest ∧
            ((∃ c, e = Edit.overwrite first.2.1 first.2.2 c) ∨
             (∃ c, e = Edit.appendLeft first.2.2 c)))) ∧
      (∀ p q, p < q → q ≤ source.data.length →
        (∀ fn ∈ collectExported source stmts, fn.stop ≤ p ∨ q ≤ fn.start) →
        (∀ first rest, electronImportNodes stmts = first :: rest →
            first.2.2 ≤ p ∨ q ≤ first.2.1) →
        ∃ u v, out = u ++ sliceStr source p q ++ v) := by
  intro ctx source id stmts out hsp htr
  constructor
  · intro e he
    rw [transformEdits] at he
    rcases List.mem_append.mp he with hg | hm
    · rw [generationStep_fst] at hg
      obtain ⟨fn, hfn, heq⟩ := List.mem_map.mp hg
      rcases genFunctionEdit_shape ctx (testMainIpcFile id) (testRendererIpcFile id)
          (channelFor id fn) fn with ⟨c', hc⟩ | ⟨c', hc⟩
      · exact Or.inr (Or.inl ⟨c', by rw [← heq, hc]⟩)
      · exact Or.inr (Or.inr (Or.inl ⟨fn, hfn, c', by rw [← heq, hc]⟩))
    · rcases mergeElectronImports_shape source stmts _ _ hm with ⟨c', hc⟩ | ⟨first, rest, hn, hsub⟩
      · exact Or.inl ⟨c', hc⟩
      · exact Or.inr (Or.inr (Or.inr ⟨first, rest, hn, hsub⟩))
  · intro p q hpq hqle hfns himps
    rw [transform_some ctx source id stmts out htr]
    have hok := transformEdits_ok ctx source id stmts hsp
    refine output_contains_slice hok hpq hqle ?_ ?_
    · intro s t c hm
      rcases transformEdits_overwrites ctx source id stmts s t c hm with
        ⟨fn, hfn, _, hs, ht⟩ | ⟨first, rest, hn, hs, ht⟩
      · subst hs; subst ht
        exact hfns fn hfn
      · subst hs; subst ht
        exact himps first rest hn
    · intro r hr1 hr2
      refine transformEdits_inserts_empty ctx source id stmts r ?_
      intro n rest hn
      have hv := (hsp.2.2 n (by rw [hn]; exact List.mem_cons_self _ _)).1
      rcases himps n rest hn with h | h <;> omega

instance spansOkDecidable (source : String) (stmts : List Statement) :
    Decidable (SpansOk source stmts) := by
  unfold SpansOk
  infer_instance

/-- Concrete inputs for the frame-preservation witness: a main-role file
with one exported sync function preceded by an untouched statement. -/
def srcW : String := "const k = 1;\nexport function f()\x7breturn 1\x7d"

def stmtsW : List Statement :=
  [Statement.otherStatement,
   Statement.functionDecl true false false (some "f") 13 42]

def outW : String := "import \x7b ipcMain \x7d from 'electron';\nconst k = 1;\nexport function f()\x7breturn 1\x7d\n    try \x7b\n      ipcMain.on(\"a.main.ipc.ts:f:1ecac8227267\", (event, ...args) => \x7b\n        try \x7b\n          event.returnValue = f(...args);\n        \x7d catch (err) \x7b\n          console.error(\"Error in IPC on for channel: a.main.ipc.ts:f:1ecac8227267:\", err);\n          // Return an error object, or handle gracefully\n          event.returnValue = \x7b error: err?.message \x7d;\n        \x7d\n      \x7d);\n    \x7d catch (e) \x7b\n      console.error(\"Failed to register ipcMain on for channel: a.main.ipc.ts:f:1ecac8227267\", e);\n    \x7d"

set_option maxRecDepth 20000 in
/-- Witness for C9: on the concrete file, the untouched leading statement
`const k = 1;` reappears verbatim in the transformed output. -/
theorem frame_preservation_witness :
    SpansOk srcW stmtsW ∧ (∃ u v, outW = u ++ sliceStr srcW 0 13 ++ v) := by
  refine ⟨by decide, ?_⟩
  refine (frame_preservation Context.main srcW "a.main.ipc.ts" stmtsW outW
      (by decide) (by decide)).2 0 13 (by decide) (by decide) (by decide) ?_
  intro first rest h
  rw [show electronImportNodes stmtsW = [] from by decide] at h
  cases h

/-- A file name cannot match both role suffixes. -/
theorem roles_exclusive (id : String) :
    testMainIpcFile id = true → testRendererIpcFile id = false := by
  intro h
  by_contra hr
  have hr' : testRendererIpcFile id = true := by
    cases hrv : testRendererIpcFile id
    · exact absurd hrv hr
    · rfl
  rw [testMainIpcFile] at h
  rw [testRendererIpcFile] at hr'
  rcases Bool.or_eq_true_iff.mp h with h1 | h1 <;>
    rcases Bool.or_eq_true_iff.mp hr' with h2 | h2 <;>
    rcases List.suffix_or_suffix_of_suffix
      (List.isSuffixOf_iff_suffix.mp h1) (List.isSuffixOf_iff_suffix.mp h2) with hs | hs <;>
    revert hs <;> decide

/-- Each extracted function's own edit is in the transform's edit list. -/
theorem genEdit_mem (ctx : Context) (source id : String) (stmts : List Statement)
    {fn : ExportedFunction} (hfn : fn ∈ collectExported source stmts) :
    (genFunctionEdit ctx (testMainIpcFile id) (testRendererIpcFile id)
      (channelFor id fn) fn).1 ∈ transformEdits ctx source id stmts := by
  rw [transformEdits]
  apply List.mem_append_left
  rw [generationStep_fst]
  exact List.mem_map_of_mem _ hfn

/-- In a register-locally cell (all per-function edits are appends), every
extracted function's original span reappears verbatim in the output. -/
theorem keep_cell_slice {ctx : Context} {source id : String}
    {stmts : List Statement} {out : String} {fn : ExportedFunction}
    (hsp : SpansOk source stmts)
    (htr : transform ctx source id stmts = some out)
    (hfn : fn ∈ collectExported source stmts)
    (hkeep : ∀ fn' ∈ collectExported source stmts, ∃ c,
        (genFunctionEdit ctx (testMainIpcFile id) (testRendererIpcFile id)
          (channelFor id fn') fn').1 = Edit.append c) :
    ∃ u v, out = u ++ sliceStr source fn.start fn.stop ++ v := by
  rw [transform_some ctx source id stmts out htr]
  have hb := hsp.1 fn hfn
  refine output_contains_slice (transformEdits_ok ctx source id stmts hsp)
    hb.1 hb.2 ?_ ?_
  · intro s t c hm
    rcases transformEdits_overwrites ctx source id stmts s t c hm with
      ⟨fn', hfn', heq, hs, ht⟩ | ⟨first, rest, hn, hs, ht⟩
    · obtain ⟨c', hc⟩ := hkeep fn' hfn'
      rw [hc] at heq
      cases heq
    · subst hs; subst ht
      exact (hsp.2.2 first (by rw [hn]; exact List.mem_cons_self _ _)).2.2 fn hfn
  · intro r hr1 hr2
    refine transformEdits_inserts_empty ctx source id stmts r ?_
    intro n rest hn
    have hv := hsp.2.2 n (by rw [hn]; exact List.mem_cons_self _ _)
    rcases hv.2.2 fn hfn with h | h <;> omega

/-- C1: for every extracted exported function, the transform's output
matches its (processingContext, fileRole) cell: with context=main on a
`*.main.ipc` file the original declaration is kept verbatim and an
`ipcMain.handle` (async) or `ipcMain.on` (sync) registration on the
function's channel is appended; with context=renderer on a `*.main.ipc`
file the function's span is replaced by an `ipcRenderer.invoke` (async) or
`ipcRenderer.sendSync` (sync) stub on the same channel; with context=main
on a `*.renderer.ipc` file the span is replaced by a `webContents`
broadcast stub sending on the channel; with context=renderer on a
`*.renderer.ipc` file the original is kept and an `ipcRenderer.on`
listener is appended that sends the result back on the channel's reply
channel. -/
theorem matrix_cells :
    ∀ (ctx : Context) (source id : String) (stmts : List Statement) (out : String),
      SpansOk source stmts →
      transform ctx source id stmts = some out →
      ∀ fn ∈ collectExported source stmts,
      (ctx = Context.main → testMainIpcFile id = true →
        (Edit.append (if fn.isAsync then mainAsyncHandlerText (channelFor id fn) fn.name
            else mainSyncHandlerText (channelFor id fn) fn.name) ∈
          transformEdits ctx source id stmts) ∧
        (∃ u v, out = u ++ sliceStr source fn.start fn.stop ++ v) ∧
        (∃ u v, out = u ++ (if fn.isAsync then mainAsyncHandlerText (channelFor id fn) fn.name
            else mainSyncHandlerText (channelFor id fn) fn.name) ++ v) ∧
        (∃ u v, (if fn.isAsync then mainAsyncHandlerText (channelFor id fn) fn.name
            else mainSyncHandlerText (channelFor id fn) fn.name) =
          u ++ ((if fn.isAsync then "ipcMain.handle(\"" else "ipcMain.on(\"") ++
            channelFor id fn ++ "\"") ++ v)) ∧
      (ctx = Context.renderer → testMainIpcFile id = true →
        (Edit.overwrite fn.start fn.stop
            (if fn.isAsync then asyncInvokeStubText (channelFor id fn) fn.name
             else syncSendSyncStubText (channelFor id fn) fn.name) ∈
          transformEdits ctx source id stmts) ∧
        (∃ u v, out = u ++ (if fn.isAsync then asyncInvokeStubText (channelFor id fn) fn.name
            else syncSendSyncStubText (channelFor id fn) fn.name) ++ v) ∧
        (∃ u v, (if fn.isAsync then asyncInvokeStubText (channelFor id fn) fn.name
            else syncSendSyncStubText (channelFor id fn) fn.name) =
          u ++ ((if fn.isAsync then "ipcRenderer.invoke(\"" else "ipcRenderer.sendSync(\"") ++
            channelFor id fn ++ "\"") ++ v)) ∧
      (ctx = Context.main → testMainIpcFile id = false →
        (Edit.overwrite fn.start fn.stop
            (if fn.isAsync then asyncBroadcastStubText (channelFor id fn) fn.name
             else syncBroadcastStubText (channelFor id fn) fn.name) ∈
          transformEdits ctx source id stmts) ∧
        (∃ u v, out = u ++ (if fn.isAsync then asyncBroadcastStubText (channelFor id fn) fn.name
            else syncBroadcastStubText (channelFor id fn) fn.name) ++ v) ∧
        (∃ u v, (if fn.isAsync then asyncBroadcastStubText (channelFor id fn) fn.name
            else syncBroadcastStubText (channelFor id fn) fn.name) =
          u ++ ("wc.send(\"" ++ channelFor id fn ++ "\"") ++ v)) ∧
      (ctx = Context.renderer → testRendererIpcFile id = true →
        (Edit.append (if fn.isAsync then rendererAsyncListenerText (channelFor id fn) fn.name
            else rendererSyncListenerText (channelFor id fn) fn.name) ∈
          transformEdits ctx source id stmts) ∧
        (∃ u v, out = u ++ sliceStr source fn.start fn.stop ++ v) ∧
        (∃ u v, out = u ++ (if fn.isAsync then rendererAsyncListenerText (channelFor id fn) fn.name
            else rendererSyncListenerText (channelFor id fn) fn.name) ++ v) ∧
        (∃ u v, (if fn.isAsync then rendererAsyncListenerText (channelFor id fn) fn.name
            else rendererSyncListenerText (channelFor id fn) fn.name) =
          u ++ ("ipcRenderer.on(\"" ++ channelFor id fn ++ "\"") ++ v) ∧
        (∃ u v, (if fn.isAsync then rendererAsyncListenerText (channelFor id fn) fn.name
            else rendererSyncListenerText (channelFor id fn) fn.name) =
          u ++ ("event.sender.send(\"" ++ channelFor id fn ++ "-reply\"") ++ v)) := by
  intro ctx source id stmts out hsp htr fn hfn
  refine ⟨?_, ?_, ?_, ?_⟩
  · -- (main, *.main.ipc): register locally
    intro hctx hm
    subst hctx
    have hedit : (genFunctionEdit Context.main (testMainIpcFile id) (testRendererIpcFile id)
        (channelFor id fn) fn).1 =
        Edit.append (if fn.isAsync then mainAsyncHandlerText (channelFor id fn) fn.name
          else mainSyncHandlerText (channelFor id fn) fn.name) := by
      rw [hm]
      cases hval : fn.isAsync <;> simp [genFunctionEdit, hval]
    have hmem := genEdit_mem Context.main source id stmts hfn
    rw [hedit] at hmem
    refine ⟨hmem, ?_, ?_, ?_⟩
    · refine keep_cell_slice hsp htr hfn ?_
      intro fn' hfn'
      rw [hm]
      cases hval : fn'.isAsync <;> simp [genFunctionEdit, hval]
    · rw [transform_some _ source id stmts out htr]
      exact output_contains_append hmem
    · cases hval : fn.isAsync
      · simpa [hval] using mainSyncHandlerText_key (channelFor id fn) fn.name
      · simpa [hval] using mainAsyncHandlerText_key (channelFor id fn) fn.name
  · -- (renderer, *.main.ipc): invoker stub
    intro hctx hm
    subst hctx
    have hr : testRendererIpcFile id = false := roles_exclusive id hm
    have hedit : (genFunctionEdit Context.renderer (testMainIpcFile id) (testRendererIpcFile id)
        (channelFor id fn) fn).1 =
        Edit.overwrite fn.start fn.stop
          (if fn.isAsync then asyncInvokeStubText (channelFor id fn) fn.name
           else syncSendSyncStubText (channelFor id fn) fn.name) := by
      rw [hr]
      cases hval : fn.isAsync <;> simp [genFunctionEdit, hval]
    have hmem := genEdit_mem Context.renderer source id stmts hfn
    rw [hedit] at hmem
    refine ⟨hmem, ?_, ?_⟩
    · rw [transform_some _ source id stmts out htr]
      exact output_contains_overwrite (transformEdits_ok _ source id stmts hsp) hmem
    · cases hval : fn.isAsync
      · simpa [hval] using syncSendSyncStubText_key (channelFor id fn) fn.name
      · simpa [hval] using asyncInvokeStubText_key (channelFor id fn) fn.name
  · -- (main, *.renderer.ipc): broadcaster stub
    intro hctx hm
    subst hctx
    have hedit : (genFunctionEdit Context.main (testMainIpcFile id) (testRendererIpcFile id)
        (channelFor id fn) fn).1 =
        Edit.overwrite fn.start fn.stop
          (if fn.isAsync then asyncBroadcastStubText (channelFor id fn) fn.name
           else syncBroadcastStubText (channelFor id fn) fn.name) := by
      rw [hm]
      cases hval : fn.isAsync <;> simp [genFunctionEdit, hval]
    have hmem := genEdit_mem Context.main source id stmts hfn
    rw [hedit] at hmem
    refine ⟨hmem, ?_, ?_⟩
    · rw [transform_some _ source id stmts out htr]
      exact output_contains_overwrite (transformEdits_ok _ source id stmts hsp) hmem
    · cases hval : fn.isAsync
      · simpa [hval] using syncBroadcastStubText_key (channelFor id fn) fn.name
      · simpa [hval] using asyncBroadcastStubText_key_send (channelFor id fn) fn.name
  · -- (renderer, *.renderer.ipc): register locally
    intro hctx hr
    subst hctx
    have hedit : (genFunctionEdit Context.renderer (testMainIpcFile id) (testRendererIpcFile id)
        (channelFor id fn) fn).1 =
        Edit.append (if fn.isAsync then rendererAsyncListenerText (channelFor id fn) fn.name
          else rendererSyncListenerText (channelFor id fn) fn.name) := by
      rw [hr]
      cases hval : fn.isAsync <;> simp [genFunctionEdit, hval]
    have hmem := genEdit_mem Context.renderer source id stmts hfn
    rw [hedit] at hmem
    refine ⟨hmem, ?_, ?_, ?_, ?_⟩
    · refine keep_cell_slice hsp htr hfn ?_
      intro fn' hfn'
      rw [hr]
      cases hval : fn'.isAsync <;> simp [genFunctionEdit, hval]
    · rw [transform_some _ source id stmts out htr]
      exact output_contains_append hmem
    · cases hval : fn.isAsync
      · simpa [hval] using rendererSyncListenerText_key_on (channelFor id fn) fn.name
      · simpa [hval] using rendererAsyncListenerText_key_on (channelFor id fn) fn.name
    · cases hval : fn.isAsync
      · simpa [hval] using rendererSyncListenerText_key_send (channelFor id fn) fn.name
      · simpa [hval] using rendererAsyncListenerText_key_send (channelFor id fn) fn.name

/-- The extracted record of `srcW`'s one exported sync function. -/
def fnW : ExportedFunction := ⟨"f", 13, 42, false, sliceStr srcW 13 42, false⟩

set_option maxRecDepth 20000 in
/-- Witness for C1 at the concrete (main, `*.main.ipc`) cell: the sync
registration block is appended and the original function text is kept. -/
theorem matrix_cells_witness :
    (Edit.append (mainSyncHandlerText (channelFor "a.main.ipc.ts" fnW) "f") ∈
        transformEdits Context.main srcW "a.main.ipc.ts" stmtsW) ∧
    (∃ u v, outW = u ++ sliceStr srcW 13 42 ++ v) := by
  have h := (matrix_cells Context.main srcW "a.main.ipc.ts" stmtsW outW (by decide) (by decide))
      fnW (by decide)
  have h1 := h.1 rfl (by decide)
  exact ⟨h1.1, h1.2.1⟩

/-! ### Correctness of the named-import merge -/

/-- A well-behaved import specifier name: nonempty and made of `\w`
characters only. -/
def CleanName (s : String) : Prop :=
  s.data ≠ [] ∧ ∀ c ∈ s.data, isWordChar c = true

instance cleanNameDecidable (s : String) : Decidable (CleanName s) := by
  unfold CleanName
  infer_instance

theorem wordChar_not_space {c : Char} (h : isWordChar c = true) :
    isJsSpace c = false := by
  cases hsp : isJsSpace c
  · rfl
  · exfalso
    rw [isJsSpace] at hsp
    have hc : c = ' ' ∨ c = '\t' ∨ c = '\n' ∨ c = '\r' ∨ c = '\x0b' ∨ c = '\x0c' := by
      rcases Bool.or_eq_true_iff.mp hsp with h1 | h1
      · rcases Bool.or_eq_true_iff.mp h1 with h2 | h2
        · rcases Bool.or_eq_true_iff.mp h2 with h3 | h3
          · rcases Bool.or_eq_true_iff.mp h3 with h4 | h4
            · rcases Bool.or_eq_true_iff.mp h4 with h5 | h5
              · exact Or.inl (eq_of_beq h5)
              · exact Or.inr (Or.inl (eq_of_beq h5))
            · exact Or.inr (Or.inr (Or.inl (eq_of_beq h4)))
          · exact Or.inr (Or.inr (Or.inr (Or.inl (eq_of_beq h3))))
        · exact Or.inr (Or.inr (Or.inr (Or.inr (Or.inl (eq_of_beq h2)))))
      · exact Or.inr (Or.inr (Or.inr (Or.inr (Or.inr (eq_of_beq h1)))))
    rcases hc with rfl | rfl | rfl | rfl | rfl | rfl <;> revert h <;> decide

theorem wordChar_ne {c : Char} (h : isWordChar c = true) :
    c ≠ ',' ∧ c ≠ '}' ∧ c ≠ '\'' ∧ c ≠ '"' := by
  refine ⟨?_, ?_, ?_, ?_⟩ <;> rintro rfl <;> revert h <;> decide

/-- `dropWhile` does not touch a list with a non-space head. -/
theorem dropWhile_of_head {l : List Char} {c : Char}
    (h : isJsSpace c = false) (t : List Char) (hl : l = c :: t) :
    List.dropWhile isJsSpace l = l := by
  subst hl
  simp [List.dropWhile_cons, h]

theorem trimList_cons_space (l : List Char) : trimList (' ' :: l) = trimList l := by
  rw [trimList, trimList, List.dropWhile_cons]
  rfl

/-- Trimming leaves a nonempty all-word-character list alone, with or
without a trailing space. -/
theorem trimList_clean {l : List Char} (hne : l ≠ [])
    (h : ∀ c ∈ l, isWordChar c = true) :
    trimList l = l ∧ trimList (l ++ [' ']) = l := by
  obtain ⟨c, t, rfl⟩ : ∃ c t, l = c :: t := by
    cases l with
    | nil => exact absurd rfl hne
    | cons c t => exact ⟨c, t, rfl⟩
  have hc : isJsSpace c = false := wordChar_not_space (h c (List.mem_cons_self _ _))
  have hrev : ∀ (X : List Char), X = (c :: t).reverse → List.dropWhile isJsSpace X = X := by
    intro X hX
    cases hXv : X with
    | nil => rfl
    | cons d u =>
        have hd : d ∈ c :: t := by
          rw [← List.mem_reverse, ← hX, hXv]
          exact List.mem_cons_self _ _
        exact dropWhile_of_head (wordChar_not_space (h d hd)) u rfl
  constructor
  · rw [trimList, List.dropWhile_cons, hc]
    simp only [Bool.false_eq_true, if_false]
    rw [hrev ((c :: t).reverse) rfl, List.reverse_reverse]
  · rw [trimList]
    have h1 : List.dropWhile isJsSpace (c :: t ++ [' ']) = c :: t ++ [' '] := by
      rw [List.cons_append, List.dropWhile_cons, hc]
      simp
    rw [h1]
    have h2 : (c :: t ++ [' ']).reverse = ' ' :: (c :: t).reverse := by
      rw [List.reverse_append]
      rfl
    rw [h2, List.dropWhile_cons]
    simp only [show isJsSpace ' ' = true from rfl, if_true]
    rw [hrev ((c :: t).reverse) rfl, List.reverse_reverse]

theorem splitOnCharList_ne_nil (sep : Char) (l : List Char) :
    splitOnCharList sep l ≠ [] := by
  induction l with
  | nil => simp [splitOnCharList]
  | cons c t ih =>
      rw [splitOnCharList]
      by_cases hc : c = sep
      · simp [hc]
      · simp only [hc, if_false]
        cases hr : splitOnCharList sep t with
        | nil => exact absurd hr ih
        | cons h t' => simp

theorem splitOnCharList_append {sep : Char} {l₁ : List Char}
    (h : ∀ c ∈ l₁, c ≠ sep) (l₂ : List Char) :
    splitOnCharList sep (l₁ ++ sep :: l₂) = l₁ :: splitOnCharList sep l₂ := by
  induction l₁ with
  | nil => simp [splitOnCharList]
  | cons c t ih =>
      have hc : c ≠ sep := h c (List.mem_cons_self _ _)
      rw [List.cons_append, splitOnCharList]
      simp only [hc, if_false]
      rw [ih (fun c' hc' => h c' (List.mem_cons_of_mem _ hc'))]

theorem splitOnCharList_no_sep {sep : Char} {l : List Char}
    (h : ∀ c ∈ l, c ≠ sep) :
    splitOnCharList sep l = [l] := by
  induction l with
  | nil => rfl
  | cons c t ih =>
      have hc : c ≠ sep := h c (List.mem_cons_self _ _)
      rw [splitOnCharList]
      simp only [hc, if_false]
      rw [ih (fun c' hc' => h c' (List.mem_cons_of_mem _ hc'))]

theorem parseNameList_cons_space (X : List Char) :
    parseNameList (' ' :: X) = parseNameList X := by
  rw [parseNameList, parseNameList]
  have hsp : (' ' : Char) ≠ ',' := by decide
  rw [splitOnCharList]
  simp only [hsp, if_false]
  cases hr : splitOnCharList ',' X with
  | nil => exact absurd hr (splitOnCharList_ne_nil ',' X)
  | cons h t =>
      simp only [List.map_cons, trimList_cons_space]

/-- The head character of a joined clean name list is a word character. -/
theorem joinComma_head {ns : List String} (hne : ns ≠ [])
    (h : ∀ n ∈ ns, CleanName n) :
    ∃ c t, (joinComma ns).data = c :: t ∧ isWordChar c = true := by
  match ns, hne with
  | [n], _ =>
      obtain ⟨hn, hw⟩ := h n (List.mem_cons_self _ _)
      obtain ⟨c, t, hct⟩ : ∃ c t, n.data = c :: t := by
        cases hd : n.data with
        | nil => exact absurd hd hn
        | cons c t => exact ⟨c, t, rfl⟩
      exact ⟨c, t, by simp [joinComma, hct], hw c (by rw [hct]; exact List.mem_cons_self _ _)⟩
  | n :: m :: rest, _ =>
      obtain ⟨hn, hw⟩ := h n (List.mem_cons_self _ _)
      obtain ⟨c, t, hct⟩ : ∃ c t, n.data = c :: t := by
        cases hd : n.data with
        | nil => exact absurd hd hn
        | cons c t => exact ⟨c, t, rfl⟩
      refine ⟨c, t ++ (", " ++ joinComma (m :: rest)).data, ?_,
        hw c (by rw [hct]; exact List.mem_cons_self _ _)⟩
      show (n ++ ", " ++ joinComma (m :: rest)).data = _
      rw [String.data_append, String.data_append, List.append_assoc, hct]
      rfl

/-- Every character of a joined clean name list is a word character, a
comma or a space. -/
theorem joinComma_chars {ns : List String} (h : ∀ n ∈ ns, CleanName n) :
    ∀ c ∈ (joinComma ns).data, isWordChar c = true ∨ c = ',' ∨ c = ' ' := by
  induction ns with
  | nil => intro c hc; cases hc
  | cons n rest ih =>
      intro c hc
      match rest, hc with
      | [], hc =>
          exact Or.inl ((h n (List.mem_cons_self _ _)).2 c hc)
      | m :: rest', hc =>
          have hview : (joinComma (n :: m :: rest')).data =
              n.data ++ (',' :: ' ' :: (joinComma (m :: rest')).data) := by
            show (n ++ ", " ++ joinComma (m :: rest')).data = _
            rw [String.data_append, String.data_append, List.append_assoc]
            rfl
          rw [hview] at hc
          rcases List.mem_append.mp hc with h1 | h1
          · exact Or.inl ((h n (List.mem_cons_self _ _)).2 c h1)
          · rcases List.mem_cons.mp h1 with rfl | h2
            · exact Or.inr (Or.inl rfl)
            · rcases List.mem_cons.mp h2 with rfl | h3
              · exact Or.inr (Or.inr rfl)
              · exact ih (fun n' hn' => h n' (List.mem_cons_of_mem _ hn')) c h3

/-- Parsing back the rebuilt symbol-list capture recovers the names. -/
theorem parseNameList_joined {ns : List String} (h : ∀ n ∈ ns, CleanName n) :
    parseNameList ((joinComma ns).data ++ [' ']) = ns := by
  induction ns with
  | nil => decide
  | cons n rest ih =>
      obtain ⟨hn, hw⟩ := h n (List.mem_cons_self _ _)
      have hnosep : ∀ c ∈ n.data, c ≠ ',' :=
        fun c hc => (wordChar_ne (hw c hc)).1
      match rest with
      | [] =>
          have hjoin : (joinComma [n]).data = n.data := rfl
          rw [hjoin, parseNameList]
          have hsplit : splitOnCharList ',' (n.data ++ [' ']) = [n.data ++ [' ']] := by
            refine splitOnCharList_no_sep ?_
            intro c hc
            rcases List.mem_append.mp hc with h1 | h1
            · exact hnosep c h1
            · rcases List.mem_cons.mp h1 with rfl | h2
              · decide
              · cases h2
          rw [hsplit]
          simp only [List.map_cons, List.map_nil, (trimList_clean hn hw).2]
          simp only [List.filterMap]
          have hnotempty : n.data.isEmpty = false := by
            cases hd : n.data with
            | nil => exact absurd hd hn
            | cons c t => rfl
          simp [hnotempty]
      | m :: rest' =>
          have hclean' : ∀ n' ∈ m :: rest', CleanName n' :=
            fun n' hn' => h n' (List.mem_cons_of_mem _ hn')
          have hview : (joinComma (n :: m :: rest')).data =
              n.data ++ (',' :: (' ' :: (joinComma (m :: rest')).data)) := by
            show (n ++ ", " ++ joinComma (m :: rest')).data = _
            rw [String.data_append, String.data_append, List.append_assoc]
            rfl
          rw [hview, List.append_assoc]
          have hassoc : ((',' :: ' ' :: (joinComma (m :: rest')).data : List Char)) ++ [' '] =
              ',' :: (' ' :: ((joinComma (m :: rest')).data ++ [' '])) := by
            simp
          rw [hassoc, parseNameList, splitOnCharList_append hnosep, List.map_cons,
              (trimList_clean hn hw).1, List.filterMap_cons]
          have hnotempty : n.data.isEmpty = false := by
            cases hd : n.data with
            | nil => exact absurd hd hn
            | cons c t => rfl
          simp only [hnotempty, Bool.false_eq_true, if_false]
          have htail := parseNameList_cons_space ((joinComma (m :: rest')).data ++ [' '])
          rw [parseNameList, parseNameList] at htail
          rw [htail]
          have hrec := ih hclean'
          rw [parseNameList] at hrec
          rw [hrec]

theorem takeWhile_append_all {p : Char → Bool} {l₁ : List Char} (l₂ : List Char)
    (h : ∀ c ∈ l₁, p c = true) :
    List.takeWhile p (l₁ ++ l₂) = l₁ ++ List.takeWhile p l₂ := by
  induction l₁ with
  | nil => simp
  | cons c t ih =>
      rw [List.cons_append, List.takeWhile_cons, h c (List.mem_cons_self _ _)]
      simp only [if_true]
      rw [ih (fun c' hc' => h c' (List.mem_cons_of_mem _ hc'))]
      rfl

theorem dropWhile_append_all {p : Char → Bool} {l₁ : List Char} (l₂ : List Char)
    (h : ∀ c ∈ l₁, p c = true) :
    List.dropWhile p (l₁ ++ l₂) = List.dropWhile p l₂ := by
  induction l₁ with
  | nil => simp
  | cons c t ih =>
      rw [List.cons_append, List.dropWhile_cons, h c (List.mem_cons_self _ _)]
      simp only [if_true]
      exact ih (fun c' hc' => h c' (List.mem_cons_of_mem _ hc'))

theorem expectChar_cons {p : Char → Bool} {c : Char} (t : List Char) (h : p c = true) :
    expectChar p (c :: t) = some t := by
  simp [expectChar, h]

/-- The capture group the curly regex yields on a rebuilt import. -/
def captureOf (ns : List String) : List Char :=
  if ns.isEmpty then [] else (joinComma ns).data ++ [' ']

/-- The curly regex matches a rebuilt named import at its head, capturing
exactly the joined symbol list, over the whole statement text. -/
theorem parseNamedElectronAt_canonical (ns : List String) (suffix : String)
    (h : ∀ n ∈ ns, CleanName n) :
    parseNamedElectronAt ((mkNamedImport ns ++ suffix)).data =
      some (captureOf ns, (mkNamedImport ns).data.length) := by
  have hdata : (mkNamedImport ns ++ suffix).data =
      'i' :: 'm' :: 'p' :: 'o' :: 'r' :: 't' :: ' ' :: '{' :: ' ':: ((joinComma ns).data ++
        (' ' :: '}' :: ' ' :: 'f' :: 'r' :: 'o' :: 'm' :: ' ' :: '\'' :: 'e' :: 'l' :: 'e' :: 'c' :: 't' :: 'r' :: 'o' :: 'n' :: '\''::suffix.data)) := by
    simp only [mkNamedImport, String.data_append, List.append_assoc]
    rfl
  have hmkdata : (mkNamedImport ns).data =
      'i' :: 'm' :: 'p' :: 'o' :: 'r' :: 't' :: ' ' :: '{' :: ' ':: ((joinComma ns).data ++
        (' ' :: '}' :: ' ' :: 'f' :: 'r' :: 'o' :: 'm' :: ' ' :: '\'' :: 'e' :: 'l' :: 'e' :: 'c' :: 't' :: 'r' :: 'o' :: 'n' :: '\''::([] : List Char))) := by
    simp only [mkNamedImport, String.data_append, List.append_assoc]
    rfl
  cases hns : ns with
  | nil =>
      subst hns
      have hjc : (joinComma []).data = [] := rfl
      rw [hdata, hjc, List.nil_append, parseNamedElectronAt]
      have e1 : dropLit "import".data ('i' :: 'm' :: 'p' :: 'o' :: 'r' :: 't' :: ' ' :: '{' :: ' '::
          (' ' :: '}' :: ' ' :: 'f' :: 'r' :: 'o' :: 'm' :: ' ' :: '\'' :: 'e' :: 'l' :: 'e' :: 'c' :: 't' :: 'r' :: 'o' :: 'n' :: '\''::suffix.data))
          = some (' ' :: '{' :: ' '::
          (' ' :: '}' :: ' ' :: 'f' :: 'r' :: 'o' :: 'm' :: ' ' :: '\'' :: 'e' :: 'l' :: 'e' :: 'c' :: 't' :: 'r' :: 'o' :: 'n' :: '\''::suffix.data)) := rfl
      have e13 : expectChar isQuoteChar ('\''::suffix.data) = some suffix.data :=
        expectChar_cons _ rfl
      simp only [Option.bind_eq_bind, e1, Option.some_bind, e13, Option.pure_def]
      refine congrArg some ?_
      refine Prod.ext rfl ?_
      show ('i' :: 'm' :: 'p' :: 'o' :: 'r' :: 't' :: ' ' :: '{' :: ' '::
          (' ' :: '}' :: ' ' :: 'f' :: 'r' :: 'o' :: 'm' :: ' ' :: '\'' :: 'e' :: 'l' :: 'e' :: 'c' :: 't' :: 'r' :: 'o' :: 'n' :: '\''::suffix.data)).length
          - suffix.data.length = (mkNamedImport []).data.length
      simp only [List.length_cons]
      have : (mkNamedImport []).data.length = 27 := rfl
      omega
  | cons n0 rest0 =>
      subst hns
      have hne : (n0 :: rest0 : List String) ≠ [] := by simp
      obtain ⟨c0, t0, hjc, hcw⟩ := joinComma_head hne h
      have hjall := joinComma_chars h
      set jc := (joinComma (n0 :: rest0)).data with hjcdef
      set TAIL : List Char :=
        (' ' :: '}' :: ' ' :: 'f' :: 'r' :: 'o' :: 'm' :: ' ' :: '\'' :: 'e' :: 'l' :: 'e' :: 'c' :: 't' :: 'r' :: 'o' :: 'n' :: '\''::suffix.data)
        with htaildef
      have e1 : dropLit "import".data ('i' :: 'm' :: 'p' :: 'o' :: 'r' :: 't' :: ' ' :: '{' :: ' ':: (jc ++ TAIL))
          = some (' ' :: '{' :: ' ':: (jc ++ TAIL)) := rfl
      have e2 : List.dropWhile isJsSpace (' ' :: '{' :: ' ':: (jc ++ TAIL)) = '{' :: ' ':: (jc ++ TAIL) := rfl
      have e3 : expectChar (fun c => c == '{') ('{' :: ' ':: (jc ++ TAIL)) = some (' ':: (jc ++ TAIL)) :=
        expectChar_cons _ rfl
      have e4 : List.dropWhile isJsSpace (' ':: (jc ++ TAIL)) = jc ++ TAIL := by
        rw [List.dropWhile_cons]
        simp only [show isJsSpace ' ' = true from rfl, if_true]
        rw [hjc]
        exact dropWhile_of_head (wordChar_not_space hcw) _ rfl
      have hjne : ∀ c ∈ jc, (c != '}') = true := by
        intro c hc
        rcases hjall c hc with hw | rfl | rfl
        · simp [(wordChar_ne hw).2.1]
        · decide
        · decide
      have e5 : List.takeWhile (fun c => c != '}') (jc ++ TAIL) = jc ++ [' '] := by
        rw [takeWhile_append_all TAIL hjne]
        rfl
      have e6 : List.dropWhile (fun c => c != '}') (jc ++ TAIL) =
          '}' :: ' ' :: 'f' :: 'r' :: 'o' :: 'm' :: ' ' :: '\'' :: 'e' :: 'l' :: 'e' :: 'c' :: 't' :: 'r' :: 'o' :: 'n' :: '\''::suffix.data := by
        rw [dropWhile_append_all TAIL hjne]
        rfl
      have e7 : expectChar (fun c => c == '}')
          ('}' :: ' ' :: 'f' :: 'r' :: 'o' :: 'm' :: ' ' :: '\'' :: 'e' :: 'l' :: 'e' :: 'c' :: 't' :: 'r' :: 'o' :: 'n' :: '\''::suffix.data)
          = some (' ' :: 'f' :: 'r' :: 'o' :: 'm' :: ' ' :: '\'' :: 'e' :: 'l' :: 'e' :: 'c' :: 't' :: 'r' :: 'o' :: 'n' :: '\''::suffix.data) :=
        expectChar_cons _ rfl
      have e8 : List.dropWhile isJsSpace
          (' ' :: 'f' :: 'r' :: 'o' :: 'm' :: ' ' :: '\'' :: 'e' :: 'l' :: 'e' :: 'c' :: 't' :: 'r' :: 'o' :: 'n' :: '\''::suffix.data)
          = 'f' :: 'r' :: 'o' :: 'm' :: ' ' :: '\'' :: 'e' :: 'l' :: 'e' :: 'c' :: 't' :: 'r' :: 'o' :: 'n' :: '\''::suffix.data := rfl
      have e9 : dropLit "from".data
          ('f' :: 'r' :: 'o' :: 'm' :: ' ' :: '\'' :: 'e' :: 'l' :: 'e' :: 'c' :: 't' :: 'r' :: 'o' :: 'n' :: '\''::suffix.data)
          = some (' ' :: '\'' :: 'e' :: 'l' :: 'e' :: 'c' :: 't' :: 'r' :: 'o' :: 'n' :: '\''::suffix.data) := rfl
      have e10 : List.dropWhile isJsSpace (' ' :: '\'' :: 'e' :: 'l' :: 'e' :: 'c' :: 't' :: 'r' :: 'o' :: 'n' :: '\''::suffix.data)
          = '\'' :: 'e' :: 'l' :: 'e' :: 'c' :: 't' :: 'r' :: 'o' :: 'n' :: '\''::suffix.data := rfl
      have e11 : expectChar isQuoteChar ('\'' :: 'e' :: 'l' :: 'e' :: 'c' :: 't' :: 'r' :: 'o' :: 'n' :: '\''::suffix.data)
          = some ('e' :: 'l' :: 'e' :: 'c' :: 't' :: 'r' :: 'o' :: 'n' :: '\''::suffix.data) := expectChar_cons _ rfl
      have e12 : dropLit "electron".data ('e' :: 'l' :: 'e' :: 'c' :: 't' :: 'r' :: 'o' :: 'n' :: '\''::suffix.data)
          = some ('\''::suffix.data) := rfl
      have e13 : expectChar isQuoteChar ('\''::suffix.data) = some suffix.data :=
        expectChar_cons _ rfl
      rw [hdata, parseNamedElectronAt]
      simp only [Option.bind_eq_bind, e1, Option.some_bind, e2, e3, e4, e5, e6, e7, e8, e9, e10,
        e11, e12, e13, Option.pure_def]
      have hcap : captureOf (n0 :: rest0) = jc ++ [' '] := rfl
      rw [hcap]
      refine congrArg some ?_
      refine Prod.ext rfl ?_
      show ('i' :: 'm' :: 'p' :: 'o' :: 'r' :: 't' :: ' ' :: '{' :: ' ':: (jc ++ TAIL)).length - suffix.data.length
          = (mkNamedImport (n0 :: rest0)).data.length
      have hlen1 : ('i' :: 'm' :: 'p' :: 'o' :: 'r' :: 't' :: ' ' :: '{' :: ' ':: (jc ++ TAIL)).length
          = 9 + (jc.length + (18 + suffix.data.length)) := by
        simp [htaildef, List.length_append]
        omega
      have hlen2 : (mkNamedImport (n0 :: rest0)).data.length = 9 + (jc.length + 18) := by
        rw [hmkdata]
        simp [List.length_append]
        omega
      omega

/-- A successful head parse is the leftmost match. -/
theorem findMatch_head {parse : List Char → Option (List Char × Nat)}
    {l : List Char} {cap : List Char} {len : Nat}
    (h : parse l = some (cap, len)) :
    findMatch parse l = some (0, cap, len) := by
  cases l with
  | nil => simp [findMatch, findMatchAux, h]
  | cons c t => simp [findMatch, findMatchAux, h]

theorem replaceFirstList_prefix {pat rest repl : List Char} (hne : pat ≠ []) :
    replaceFirstList (pat ++ rest) pat repl = repl ++ rest := by
  obtain ⟨p, pt, rfl⟩ : ∃ p pt, pat = p :: pt := by
    cases pat with
    | nil => exact absurd rfl hne
    | cons p pt => exact ⟨p, pt, rfl⟩
  rw [List.cons_append, replaceFirstList]
  have hpre : (p :: pt).isPrefixOf (p :: (pt ++ rest)) = true := by
    rw [List.isPrefixOf_iff_prefix]
    exact (List.cons_append p pt rest) ▸ List.prefix_append (p :: pt) rest
  simp only [hpre, if_true]
  have : (p :: (pt ++ rest)).drop (p :: pt).length = rest := by
    rw [List.length_cons, List.drop_succ_cons, List.drop_left]
  rw [this]

/-! Properties of `mergeNames` (lines 381-385). -/

theorem mergeNames_append : ∀ (needed ex : List String),
    ∃ extra, mergeNames ex needed = ex ++ extra ∧ ∀ n ∈ extra, n ∈ needed := by
  intro needed
  induction needed with
  | nil => exact fun ex => ⟨[], by simp [mergeNames], by simp⟩
  | cons n rest ih =>
      intro ex
      rw [mergeNames, List.foldl_cons]
      by_cases hc : ex.contains n
      · simp only [hc, if_true]
        obtain ⟨extra, he, hm⟩ := ih ex
        rw [mergeNames] at he
        exact ⟨extra, he, fun n' hn' => List.mem_cons_of_mem _ (hm n' hn')⟩
      · have hc' : ex.contains n = false := Bool.eq_false_iff.mpr hc
        simp only [hc', Bool.false_eq_true, if_false]
        obtain ⟨extra, he, hm⟩ := ih (ex ++ [n])
        rw [mergeNames] at he
        refine ⟨n :: extra, ?_, ?_⟩
        · rw [he, List.append_assoc]
          rfl
        · intro n' hn'
          rcases List.mem_cons.mp hn' with rfl | h2
          · exact List.mem_cons_self _ _
          · exact List.mem_cons_of_mem _ (hm n' h2)

theorem mergeNames_mem : ∀ (needed ex : List String) (n : String),
    n ∈ needed → n ∈ mergeNames ex needed := by
  intro needed
  induction needed with
  | nil => intro ex n hn; cases hn
  | cons n0 rest ih =>
      intro ex n hn
      rw [mergeNames, List.foldl_cons]
      rcases List.mem_cons.mp hn with rfl | h2
      · by_cases hc : ex.contains n
        · simp only [hc, if_true]
          obtain ⟨extra, he, _⟩ := mergeNames_append rest ex
          rw [mergeNames] at he
          rw [he]
          exact List.mem_append_left _ (List.elem_iff.mp hc)
        · have hc' : ex.contains n = false := Bool.eq_false_iff.mpr hc
          simp only [hc', Bool.false_eq_true, if_false]
          obtain ⟨extra, he, _⟩ := mergeNames_append rest (ex ++ [n])
          rw [mergeNames] at he
          rw [he]
          exact List.mem_append_left _ (List.mem_append_right _ (List.mem_cons_self _ _))
      · by_cases hc : ex.contains n0
        · simp only [hc, if_true]
          exact ih _ n h2
        · have hc' : ex.contains n0 = false := Bool.eq_false_iff.mpr hc
          simp only [hc', Bool.false_eq_true, if_false]
          exact ih _ n h2

theorem mergeNames_absorb : ∀ (needed ex : List String),
    (∀ n ∈ needed, n ∈ ex) → mergeNames ex needed = ex := by
  intro needed
  induction needed with
  | nil => intro ex _; rfl
  | cons n rest ih =>
      intro ex h
      rw [mergeNames, List.foldl_cons]
      have hc : ex.contains n = true :=
        List.elem_iff.mpr (h n (List.mem_cons_self _ _))
      simp only [hc, if_true]
      exact ih ex (fun n' hn' => h n' (List.mem_cons_of_mem _ hn'))

theorem mergeNames_nodup : ∀ (needed ex : List String),
    ex.Nodup → (mergeNames ex needed).Nodup := by
  intro needed
  induction needed with
  | nil => intro ex h; exact h
  | cons n rest ih =>
      intro ex h
      rw [mergeNames, List.foldl_cons]
      by_cases hc : ex.contains n
      · simp only [hc, if_true]
        exact ih ex h
      · have hc' : ex.contains n = false := Bool.eq_false_iff.mpr hc
        simp only [hc', Bool.false_eq_true, if_false]
        refine ih (ex ++ [n]) ?_
        rw [List.nodup_append]
        refine ⟨h, List.nodup_singleton n, ?_⟩
        intro a ha hb
        rcases List.mem_singleton.mp hb with rfl
        exact hc (List.elem_iff.mpr ha)

theorem mergeNames_clean {ns needed : List String}
    (h1 : ∀ n ∈ ns, CleanName n) (h2 : ∀ n ∈ needed, CleanName n) :
    ∀ n ∈ mergeNames ns needed, CleanName n := by
  obtain ⟨extra, he, hm⟩ := mergeNames_append needed ns
  rw [he]
  intro n hn
  rcases List.mem_append.mp hn with h | h
  · exact h1 n h
  · exact h2 n (hm n h)

theorem parseNameList_captureOf {ns : List String} (h : ∀ n ∈ ns, CleanName n) :
    parseNameList (captureOf ns) = ns := by
  cases ns with
  | nil => rfl
  | cons n rest =>
      have : captureOf (n :: rest) = (joinComma (n :: rest)).data ++ [' '] := rfl
      rw [this, parseNameList_joined h]

/-- On a rebuilt named-import statement, the merge parses back exactly the
existing names, appends the missing needed ones, and replaces the matched
statement text in place. -/
theorem mergeNamedImportText_canonical (ns needed : List String) (suffix : String)
    (h : ∀ n ∈ ns, CleanName n) :
    mergeNamedImportText (mkNamedImport ns ++ suffix) needed =
      some (mkNamedImport (mergeNames ns needed) ++ suffix) := by
  rw [mergeNamedImportText,
    findMatch_head (parseNamedElectronAt_canonical ns suffix h), Option.map_some']
  refine congrArg some ?_
  have htdata : (mkNamedImport ns ++ suffix).data = (mkNamedImport ns).data ++ suffix.data :=
    String.data_append _ _
  have hmatched : ((mkNamedImport ns ++ suffix).data.drop 0).take (mkNamedImport ns).data.length
      = (mkNamedImport ns).data := by
    rw [List.drop_zero, htdata, List.take_left]
  rw [hmatched, parseNameList_captureOf h]
  have hmkne : (mkNamedImport ns).data ≠ [] := by
    rw [mkNamedImport]
    intro hcontra
    have : (("import \x7b " ++ joinComma ns) ++ " \x7d from 'electron'").data.length = 0 := by
      rw [hcontra]
      rfl
    rw [String.data_append, String.data_append, List.length_append, List.length_append] at this
    have h9 : ("import \x7b " : String).data.length = 9 := rfl
    omega
  have hrepl : replaceFirstList (mkNamedImport ns ++ suffix).data
      (mkNamedImport ns).data (mkNamedImport (mergeNames ns needed)).data
      = (mkNamedImport (mergeNames ns needed)).data ++ suffix.data := by
    rw [htdata]
    exact replaceFirstList_prefix hmkne
  simp only []
  rw [hrepl]
  rfl

/-- Concrete inputs for the C7 counterexample: the first electron import has
an unclassifiable shape (`import electron, \x7b ipcMain \x7d`), so the merge
falls back to appending a fresh named import that re-imports `ipcMain`. -/
def src7 : String :=
  "import electron, \x7b ipcMain \x7d from 'electron';\nexport function f()\x7breturn 1\x7d"

def stmts7 : List Statement :=
  [Statement.importDecl "'electron'" (ImportClauseKind.namedImports ["ipcMain"]) 0 45,
   Statement.functionDecl true false false (some "f") 46 75]

def out7 : String := "import electron, \x7b ipcMain \x7d from 'electron';\nimport \x7b ipcMain \x7d from 'electron';\nexport function f()\x7breturn 1\x7d\n    try \x7b\n      ipcMain.on(\"a.main.ipc.ts:f:1ecac8227267\", (event, ...args) => \x7b\n        try \x7b\n          event.returnValue = f(...args);\n        \x7d catch (err) \x7b\n          console.error(\"Error in IPC on for channel: a.main.ipc.ts:f:1ecac8227267:\", err);\n          // Return an error object, or handle gracefully\n          event.returnValue = \x7b error: err?.message \x7d;\n        \x7d\n      \x7d);\n    \x7d catch (e) \x7b\n      console.error(\"Failed to register ipcMain on for channel: a.main.ipc.ts:f:1ecac8227267\", e);\n    \x7d"

set_option maxRecDepth 20000 in
/-- Counterexample for C7 as stated: `ipcMain` is already a named import of
the file, yet the merged output contains a second named import of
`ipcMain` (a duplicate binding). -/
theorem import_merge_duplicate_counterexample :
    "ipcMain" ∈ existingElectronNamedImports stmts7 ∧
    transform Context.main src7 "a.main.ipc.ts" stmts7 = some out7 ∧
    List.IsInfix "import electron, \x7b ipcMain \x7d from 'electron';".data out7.data ∧
    List.IsInfix "\nimport \x7b ipcMain \x7d from 'electron';".data out7.data := by
  refine ⟨by decide, by decide, by decide, by decide⟩

/-- C7 (amended): on a plain named electron import the merge appends exactly
the missing needed symbols after the existing ones, introduces no
duplicates, is idempotent on its own output, and the merge step never edits
anything but the first electron import (prepending or inserting new
statements otherwise); but the fallback path for an unclassifiable
electron import can duplicate an already-imported symbol (see the
counterexample). -/
theorem import_merge_named_correct :
    ∀ (ns needed : List String) (suffix : String),
      (∀ n ∈ ns, CleanName n) → (∀ n ∈ needed, CleanName n) →
      (mergeNamedImportText (mkNamedImport ns ++ suffix) needed =
        some (mkNamedImport (mergeNames ns needed) ++ suffix)) ∧
      (mergeNamedImportText (mkNamedImport (mergeNames ns needed) ++ suffix) needed =
        some (mkNamedImport (mergeNames ns needed) ++ suffix)) ∧
      (∀ n ∈ needed, n ∈ mergeNames ns needed) ∧
      (∃ extra, mergeNames ns needed = ns ++ extra ∧ ∀ n ∈ extra, n ∈ needed) ∧
      (ns.Nodup → (mergeNames ns needed).Nodup) ∧
      (∀ (source : String) (stmts : List Statement) (needed' : List String) (e : Edit),
        e ∈ mergeElectronImports source stmts needed' →
        (∃ c, e = Edit.prepend c) ∨
        (∃ first rest, electronImportNodes stmts = first :: rest ∧
          ((∃ c, e = Edit.overwrite first.2.1 first.2.2 c) ∨
           (∃ c, e = Edit.appendLeft first.2.2 c)))) := by
  intro ns needed suffix h1 h2
  refine ⟨mergeNamedImportText_canonical ns needed suffix h1, ?_,
    fun n hn => mergeNames_mem needed ns n hn,
    mergeNames_append needed ns,
    fun hnd => mergeNames_nodup needed ns hnd,
    fun source stmts needed' e he => mergeElectronImports_shape source stmts needed' e he⟩
  have habs : mergeNames (mergeNames ns needed) needed = mergeNames ns needed :=
    mergeNames_absorb needed (mergeNames ns needed)
      (fun n hn => mergeNames_mem needed ns n hn)
  have := mergeNamedImportText_canonical (mergeNames ns needed) needed suffix
    (mergeNames_clean h1 h2)
  rwa [habs] at this

/-- Witness for C7 (amended) at concrete inputs: merging
`import \x7b ipcMain \x7d from 'electron';` with needed symbols
`ipcMain, webContents` adds only `webContents`, and merging the result
again changes nothing. -/
theorem import_merge_named_correct_witness :
    mergeNamedImportText "import \x7b ipcMain \x7d from 'electron';" ["ipcMain", "webContents"] =
      some "import \x7b ipcMain, webContents \x7d from 'electron';" ∧
    mergeNamedImportText "import \x7b ipcMain, webContents \x7d from 'electron';"
        ["ipcMain", "webContents"] =
      some "import \x7b ipcMain, webContents \x7d from 'electron';" := by
  have h := import_merge_named_correct ["ipcMain"] ["ipcMain", "webContents"] ";"
    (by decide) (by decide)
  have hmerged : mergeNames ["ipcMain"] ["ipcMain", "webContents"] = ["ipcMain", "webContents"] := by
    decide
  constructor
  · have h1 := h.1
    rw [hmerged] at h1
    exact h1
  · have h2 := h.2.1
    rw [hmerged] at h2
    exact h2

/-! ### C4: error paths of the async proxy stubs -/

theorem foldl_broadcast_resolved {α : Type} (rest : List (IpcPayload α))
    (e : Except String (IpcPayload α)) :
    List.foldl broadcastReplyHandler ⟨true, some e⟩ rest = ⟨true, some e⟩ := by
  induction rest with
  | nil => rfl
  | cons r rs ih =>
      rw [List.foldl_cons]
      have h : broadcastReplyHandler ⟨true, some e⟩ r = ⟨true, some e⟩ := rfl
      rw [h]
      exact ih

set_option maxRecDepth 20000 in
/-- Counterexample for C4 as stated: the broadcaster stub does watch the
reply channel for the `__ipcError` sentinel, but the invoker stub contains
no reply channel and no sentinel at all — it awaits `ipcRenderer.invoke`
and rethrows its rejection unchanged. -/
theorem async_invoker_no_sentinel_counterexample :
    List.IsInfix "__ipcError".data (asyncBroadcastStubText "c" "f").data ∧
    List.IsInfix "-reply\"".data (asyncBroadcastStubText "c" "f").data ∧
    ¬ List.IsInfix "__ipcError".data (asyncInvokeStubText "c" "f").data ∧
    ¬ List.IsInfix "-reply".data (asyncInvokeStubText "c" "f").data ∧
    List.IsInfix "return await ipcRenderer.invoke(\"c\"".data
      (asyncInvokeStubText "c" "f").data ∧
    List.IsInfix "throw err;".data (asyncInvokeStubText "c" "f").data := by
  refine ⟨by decide, by decide, by decide, by decide, by decide, by decide⟩

/-- C4 (amended): the invoker stub passes the settled result of
`ipcRenderer.invoke` through unchanged (resolving with the reply, rejecting
with the invoke rejection — no sentinel involved); only the broadcaster
stub settles from the reply channel, rejecting with an error reconstructed
from the `\x7b __ipcError: <message> \x7d` sentinel payload and resolving
with any other first reply; with no reply it stays pending. -/
theorem async_stub_reply_semantics :
    (∀ (r : Except String Nat), asyncInvokeStubRun r = r) ∧
    (∀ (m : String) (rest : List (IpcPayload Nat)),
      runAsyncBroadcast (IpcPayload.ipcErrObj m :: rest) =
        ⟨true, some (Except.error m)⟩) ∧
    (∀ (v : Nat) (rest : List (IpcPayload Nat)),
      runAsyncBroadcast (IpcPayload.val v :: rest) =
        ⟨true, some (Except.ok (IpcPayload.val v))⟩) ∧
    runAsyncBroadcast ([] : List (IpcPayload Nat)) = ⟨false, none⟩ := by
  refine ⟨?_, ?_, ?_, rfl⟩
  · intro r
    cases r <;> rfl
  · intro m rest
    exact foldl_broadcast_resolved rest _
  · intro v rest
    exact foldl_broadcast_resolved rest _

/-! ### C5: error paths of the sync register-locally cells -/

set_option maxRecDepth 20000 in
/-- Counterexample for C5 as stated: the main-context sync handler does put
`\x7b error: <message> \x7d` into `event.returnValue`, but the
renderer-context sync listener has no return-value slot at all — it sends
the `__ipcError` sentinel on the reply channel instead. -/
theorem renderer_sync_no_returnValue_counterexample :
    List.IsInfix "event.returnValue = \x7b error: err?.message \x7d;".data
      (mainSyncHandlerText "c" "f").data ∧
    ¬ List.IsInfix "returnValue".data (rendererSyncListenerText "c" "f").data ∧
    ¬ List.IsInfix "\x7b error:".data (rendererSyncListenerText "c" "f").data ∧
    List.IsInfix ", \x7b __ipcError: err?.message \x7d);".data
      (rendererSyncListenerText "c" "f").data := by
  refine ⟨by decide, by decide, by decide, by decide⟩

/-- C5 (amended): in both sync register-locally cells a thrown handler
error is caught at the boundary and never propagates (the callback always
returns normally); in the main cell it becomes the
`\x7b error: <message> \x7d` payload in the synchronous return-value slot,
while in the renderer cell it becomes the `\x7b __ipcError: <message> \x7d`
sentinel sent on the reply channel. -/
theorem sync_register_error_paths :
    (∀ (m : String) (args : List Nat),
      mainSyncOnRun (fun _ => Except.error m) args =
        Except.ok (IpcPayload.errObj m)) ∧
    (∀ (f : List Nat → Except String Nat) (args : List Nat),
      ∃ p, mainSyncOnRun f args = Except.ok p) ∧
    (∀ (c m : String) (args : List Nat),
      rendererSyncOnRun c (fun _ => Except.error m) args =
        Except.ok (c ++ "-reply", IpcPayload.ipcErrObj m)) ∧
    (∀ (c : String) (f : List Nat → Except String Nat) (args : List Nat),
      ∃ p, rendererSyncOnRun c f args = Except.ok (c ++ "-reply", p)) := by
  refine ⟨fun m args => rfl, ?_, fun c m args => rfl, ?_⟩
  · intro f args
    cases h : f args with
    | ok v => exact ⟨IpcPayload.val v, by simp [mainSyncOnRun, tryCatch, h, Except.map]⟩
    | error m => exact ⟨IpcPayload.errObj m, by simp [mainSyncOnRun, tryCatch, h, Except.map]⟩
  · intro c f args
    cases h : f args with
    | ok v =>
        exact ⟨IpcPayload.val v, by simp [rendererSyncOnRun, tryCatch, h, Except.map]⟩
    | error m =>
        exact ⟨IpcPayload.ipcErrObj m, by simp [rendererSyncOnRun, tryCatch, h, Except.map]⟩

/-! ### C6: first-reply-wins policy of the async broadcaster -/

theorem runAsyncBroadcast_cons {α : Type} (r : IpcPayload α)
    (rest : List (IpcPayload α)) :
    runAsyncBroadcast (r :: rest) = runAsyncBroadcast [r] := by
  cases r <;> exact foldl_broadcast_resolved rest _

set_option maxRecDepth 20000 in
/-- C6: the broadcaster enumerates `webContents.getAllWebContents()` and
sends the same channel message to every entry; its promise state after any
reply sequence equals the state after the first reply alone (subsequent
replies are ignored) and is settled after the first reply; with zero
replies it is unsettled — and with zero open webContents no message is
sent, so no reply can ever arrive and the promise never settles. -/
theorem broadcaster_first_reply_wins :
    (∀ (wcs : List Nat) (c : String),
      broadcastSends wcs c = wcs.map (fun w => (w, c))) ∧
    (∀ (r : IpcPayload Nat) (rest : List (IpcPayload Nat)),
      runAsyncBroadcast (r :: rest) = runAsyncBroadcast [r] ∧
      (runAsyncBroadcast (r :: rest)).resolved = true) ∧
    runAsyncBroadcast ([] : List (IpcPayload Nat)) = ⟨false, none⟩ ∧
    broadcastSends ([] : List Nat) "c" = [] ∧
    List.IsInfix "const all = webContents.getAllWebContents();".data
      (asyncBroadcastStubText "c" "f").data ∧
    List.IsInfix "wc.once(\"c-reply\"".data (asyncBroadcastStubText "c" "f").data ∧
    (∀ (channel fname : String), ∃ u v, asyncBroadcastStubText channel fname =
      u ++ ("wc.send(\"" ++ channel ++ "\"") ++ v) ∧
    List.IsInfix "if (!resolved) \x7b\n              resolved = true;".data
      (asyncBroadcastStubText "c" "f").data := by
  refine ⟨fun wcs c => rfl, ?_, rfl, rfl, by decide, by decide,
    fun channel fname => asyncBroadcastStubText_key_send channel fname, by decide⟩
  intro r rest
  refine ⟨runAsyncBroadcast_cons r rest, ?_⟩
  rw [runAsyncBroadcast_cons r rest]
  cases r <;> rfl

/-! ### C10: the sync broadcaster is fire-and-forget -/

set_option maxRecDepth 20000 in
/-- C10: with context=main on a `*.renderer.ipc` file, each non-async
exported function is replaced (its span overwritten) by the sync broadcast
stub; that stub sends the channel message to every open webContents and
returns `undefined`, and its text registers no listener (`once`), names no
reply channel, and contains no error payload of any shape (no `__ipcError`,
no `error` at all). -/
theorem sync_broadcast_fire_and_forget :
    (∀ (source id : String) (stmts : List Statement) (fn : ExportedFunction),
      fn ∈ collectExported source stmts →
      testMainIpcFile id = false →
      fn.isAsync = false →
      Edit.overwrite fn.start fn.stop
          (syncBroadcastStubText (channelFor id fn) fn.name) ∈
        transformEdits Context.main source id stmts) ∧
    (∀ (wcs : List Nat) (c : String),
      syncBroadcastRun wcs c = (wcs.map (fun w => (w, c)), (none : Option Nat))) ∧
    List.IsInfix "wc.send(\"c\"".data (syncBroadcastStubText "c" "f").data ∧
    ¬ List.IsInfix "once".data (syncBroadcastStubText "c" "f").data ∧
    ¬ List.IsInfix "-reply".data (syncBroadcastStubText "c" "f").data ∧
    ¬ List.IsInfix "__ipcError".data (syncBroadcastStubText "c" "f").data ∧
    ¬ List.IsInfix "error".data (syncBroadcastStubText "c" "f").data := by
  refine ⟨?_, fun wcs c => rfl, by decide, by decide, by decide, by decide, by decide⟩
  intro source id stmts fn hfn hmain hasync
  have h := genEdit_mem Context.main source id stmts hfn
  have he : (genFunctionEdit Context.main (testMainIpcFile id)
      (testRendererIpcFile id) (channelFor id fn) fn).1 =
      Edit.overwrite fn.start fn.stop
        (syncBroadcastStubText (channelFor id fn) fn.name) := by
    rw [hmain]
    simp [genFunctionEdit, hasync]
  rw [he] at h
  exact h

set_option maxRecDepth 20000 in
/-- Witness for C10 at a concrete file: the sync function `f` of the C9
witness source, compiled as `a.renderer.ipc.ts` in the main context, has
its span overwritten by the sync broadcast stub. -/
theorem sync_broadcast_fire_and_forget_witness :
    fnW ∈ collectExported srcW stmtsW ∧
    testMainIpcFile "a.renderer.ipc.ts" = false ∧
    fnW.isAsync = false ∧
    Edit.overwrite fnW.start fnW.stop
        (syncBroadcastStubText (channelFor "a.renderer.ipc.ts" fnW) fnW.name) ∈
      transformEdits Context.main srcW "a.renderer.ipc.ts" stmtsW :=
  ⟨by decide, by decide, by decide,
    sync_broadcast_fire_and_forget.1 srcW "a.renderer.ipc.ts" stmtsW fnW
      (by decide) (by decide) (by decide)⟩

/-! ### C8: default exports do not keep their exported surface -/

def src8 : String := "export default async function foo()\x7breturn 1\x7d"

def stmts8 : List Statement :=
  [Statement.functionDecl true true true (some "foo") 0 45]

def out8 : String := "import \x7b ipcRenderer \x7d from 'electron';\n\n    export async function foo(...args) \x7b\n      try \x7b\n        return await ipcRenderer.invoke(\"a.main.ipc.ts:default:1f492a942667\", ...args);\n      \x7d catch (err) \x7b\n        console.error(\"IPC invoke error on channel: a.main.ipc.ts:default:1f492a942667:\", err);\n        throw err;\n      \x7d\n    \x7d"

set_option maxRecDepth 20000 in
/-- C8 is a code bug on default exports: the input exports `foo` as its
default export, but the transformed output contains no `export default` at
all — the stub is emitted as a plain named export `export async function
foo`, so the module's default-import call sites no longer resolve. -/
theorem default_export_surface_lost :
    List.IsInfix "export default async function foo".data src8.data ∧
    transform Context.renderer src8 "a.main.ipc.ts" stmts8 = some out8 ∧
    ¬ List.IsInfix "export default".data out8.data ∧
    List.IsInfix "export async function foo".data out8.data := by
  refine ⟨by decide, by decide, by decide, by decide⟩

end ElectronIpc
